import Mathlib

/-!
Verification of the request/response adaptation layer of the EO-DataHub
stac-fastapi fork: the schema composer (`stac_fastapi/api/models.py`), the
endpoint adapter (`stac_fastapi/api/routes.py`), the link resolver
(`stac_fastapi/types/links.py`) and the conformance-class aggregation
(`stac_fastapi/types/core.py`).

Python strings are modelled as `List Char`; Python dicts as ordered
association lists; in-place mutation of shared link dicts as an explicit
store.  The parts of the Python standard library `urllib.parse` that
`resolve_links` calls (`urlsplit`, `urljoin`) are modelled faithfully after
the CPython 3.11 implementation, since the behaviour of `resolve_links` is
inseparable from them.
-/

namespace StacFastapi

/-- Python strings, modelled as lists of characters. -/
abbrev Str := List Char

/-- Embed a Lean string literal as a Python string. -/
def pystr (s : String) : Str := s.toList

/-- Python `s.split(c)` for a one-character separator: no collapsing of empty
pieces, `"".split("/") == [""]`.  This is exactly `List.splitOn`. -/
def pysplit (c : Char) (s : Str) : List Str := s.splitOn c

/-- Python `c.join(pieces)` for a one-character separator. -/
def pyjoin (c : Char) (pieces : List Str) : Str := List.intercalate [c] pieces

/-- Python's substring test `pat in s`. -/
def strIn (pat s : Str) : Bool := s.tails.any (fun t => pat.isPrefixOf t)

/-- Python `s.startswith(pat)`. -/
def startswith (pat s : Str) : Bool := pat.isPrefixOf s

/-- Split at the first occurrence of `c`: returns the part before the first
`c` and, when `c` occurs, the part after it.  This packages Python's
`c in s` test together with `s.split(c, 1)` and `s.find(c)`. -/
def breakAt (c : Char) : Str → Str × Option Str
  | [] => ([], none)
  | a :: rest =>
    if a = c then ([], some rest)
    else
      let r := breakAt c rest
      (a :: r.1, r.2)

/-- Split at the last occurrence of `c` (`none` when `c` is absent):
`rbreakAt c s = some (pre, suf)` means `s = pre ++ c :: suf` with `c ∉ suf`.
This packages Python's `s.rfind(c)`. -/
def rbreakAt (c : Char) (s : Str) : Option (Str × Str) :=
  match breakAt c s.reverse with
  | (sufRev, some preRev) => some (preRev.reverse, sufRev.reverse)
  | (_, none) => none

namespace Urllib

/-!
Model of the parts of CPython 3.11 `urllib.parse` used by
`stac_fastapi/types/links.py`: `urlsplit`, `urlparse`, `urlunsplit`,
`urlunparse` and `urljoin`, together with the `uses_relative`,
`uses_netloc` and `uses_params` scheme tables and `scheme_chars`.
The IPv6 bracket validation and the non-ASCII netloc check (which only
raise exceptions on exotic inputs) are not modelled.
-/

/-- CPython `scheme_chars`: ASCII letters, digits and `+`, `-`, `.`. -/
def isSchemeChar (c : Char) : Bool := c.isAlpha || c.isDigit || c = '+' || c = '-' || c = '.'

/-- CPython `uses_relative`. -/
def uses_relative : List Str :=
  [pystr "", pystr "ftp", pystr "http", pystr "gopher", pystr "nntp", pystr "imap",
   pystr "wais", pystr "file", pystr "https", pystr "shttp", pystr "mms",
   pystr "prospero", pystr "rtsp", pystr "rtsps", pystr "rtspu", pystr "sftp",
   pystr "svn", pystr "svn+ssh", pystr "ws", pystr "wss"]

/-- CPython `uses_netloc`. -/
def uses_netloc : List Str :=
  [pystr "", pystr "ftp", pystr "http", pystr "gopher", pystr "nntp", pystr "telnet",
   pystr "imap", pystr "wais", pystr "file", pystr "mms", pystr "https", pystr "shttp",
   pystr "snews", pystr "prospero", pystr "rtsp", pystr "rtsps", pystr "rtspu",
   pystr "rsync", pystr "svn", pystr "svn+ssh", pystr "sftp", pystr "nfs",
   pystr "git", pystr "git+ssh", pystr "ws", pystr "wss"]

/-- CPython `uses_params`. -/
def uses_params : List Str :=
  [pystr "", pystr "ftp", pystr "hdl", pystr "prospero", pystr "http", pystr "imap",
   pystr "https", pystr "shttp", pystr "rtsp", pystr "rtsps", pystr "rtspu",
   pystr "sip", pystr "sips", pystr "mms", pystr "sftp", pystr "tel"]

/-- `url.lstrip(_WHATWG_C0_CONTROL_OR_SPACE)`: drop leading C0 controls and spaces. -/
def lstripControl (s : Str) : Str := s.dropWhile (fun c => c.toNat ≤ 32)

/-- `scheme.strip(_WHATWG_C0_CONTROL_OR_SPACE)`: strip both ends. -/
def stripControl (s : Str) : Str :=
  ((s.dropWhile (fun c => c.toNat ≤ 32)).reverse.dropWhile (fun c => c.toNat ≤ 32)).reverse

/-- Remove `_UNSAFE_URL_BYTES_TO_REMOVE` (tab, CR, LF) everywhere. -/
def removeUnsafe (s : Str) : Str := s.filter (fun c => !(c = '\t' || c = '\r' || c = '\n'))

/-- The five components returned by `urlsplit`. -/
structure SplitResult where
  scheme : Str
  netloc : Str
  path : Str
  query : Str
  fragment : Str
deriving DecidableEq, Repr

/-- A character ending the netloc in `_splitnetloc`. -/
def isNetlocDelim (c : Char) : Bool := c = '/' || c = '?' || c = '#'

/-- The scheme-detection block of CPython `urlsplit`: when the part before
the first `:` is a nonempty run of scheme characters starting with a letter,
split it off (lowercased); otherwise leave the url untouched. -/
def schemeSplit (url : Str) : Option Str × Str :=
  match breakAt ':' url with
  | (pre, some rest) =>
    match pre with
    | [] => (none, url)
    | c0 :: _ =>
      if c0.isAlpha && pre.all isSchemeChar then (some (pre.map Char.toLower), rest)
      else (none, url)
  | (_, none) => (none, url)

/-- The netloc block of CPython `urlsplit` (`url[:2] == '//'` and
`_splitnetloc`). -/
def netlocSplit (url : Str) : Str × Str :=
  if startswith (pystr "//") url then
    let after := url.drop 2
    (after.takeWhile (fun c => !isNetlocDelim c), after.dropWhile (fun c => !isNetlocDelim c))
  else ([], url)

/-- The fragment block of CPython `urlsplit` (`url.split('#', 1)`). -/
def fragmentSplit (url : Str) : Str × Str :=
  match breakAt '#' url with
  | (pre, some f) => (pre, f)
  | (_, none) => (url, [])

/-- The query block of CPython `urlsplit` (`url.split('?', 1)`). -/
def querySplit (url : Str) : Str × Str :=
  match breakAt '?' url with
  | (pre, some q) => (pre, q)
  | (_, none) => (url, [])

/-- CPython 3.11 `urlsplit(url, scheme, allow_fragments=True)`.  The `scheme`
argument is the default used when the url carries no scheme of its own. -/
def urlsplit (url0 scheme0 : Str) : SplitResult :=
  let url1 := removeUnsafe (lstripControl url0)
  let dflt := removeUnsafe (stripControl scheme0)
  let su := schemeSplit url1
  let nu := netlocSplit su.2
  let uf := fragmentSplit nu.2
  let pq := querySplit uf.1
  ⟨su.1.getD dflt, nu.1, pq.1, pq.2, uf.2⟩

/-- The six components returned by `urlparse`. -/
structure ParseResult where
  scheme : Str
  netloc : Str
  path : Str
  params : Str
  query : Str
  fragment : Str
deriving DecidableEq, Repr

/-- CPython `_splitparams`. -/
def splitparams (url : Str) : Str × Str :=
  match rbreakAt '/' url with
  | some (pre, last) =>
    match breakAt ';' last with
    | (a, some b) => (pre ++ '/' :: a, b)
    | (_, none) => (url, [])
  | none =>
    match breakAt ';' url with
    | (a, some b) => (a, b)
    | (_, none) => (url, [])

/-- CPython `urlparse(url, scheme, allow_fragments=True)`. -/
def urlparse (url scheme : Str) : ParseResult :=
  let s := urlsplit url scheme
  if s.scheme ∈ uses_params ∧ strIn [';'] s.path then
    let pp := splitparams s.path
    ⟨s.scheme, s.netloc, pp.1, pp.2, s.query, s.fragment⟩
  else ⟨s.scheme, s.netloc, s.path, [], s.query, s.fragment⟩

/-- CPython 3.11 `urlunsplit`. -/
def urlunsplit (scheme netloc path query fragment : Str) : Str :=
  let url1 :=
    if netloc ≠ [] ∨ (scheme ≠ [] ∧ scheme ∈ uses_netloc ∧ ¬ startswith (pystr "//") path) then
      let p := if path ≠ [] ∧ ¬ startswith (pystr "/") path then '/' :: path else path
      pystr "//" ++ netloc ++ p
    else path
  let url2 := if scheme ≠ [] then scheme ++ ':' :: url1 else url1
  let url3 := if query ≠ [] then url2 ++ '?' :: query else url2
  if fragment ≠ [] then url3 ++ '#' :: fragment else url3

/-- CPython `urlunparse`. -/
def urlunparse (scheme netloc path params query fragment : Str) : Str :=
  let url := if params ≠ [] then path ++ ';' :: params else path
  urlunsplit scheme netloc url query fragment

/-- One step of the `resolved_path` loop in CPython `urljoin`: `..` pops
(ignoring a pop from an empty list), `.` is skipped, anything else appended. -/
def dotStep (acc : List Str) (seg : Str) : List Str :=
  if seg = pystr ".." then acc.dropLast
  else if seg = pystr "." then acc
  else acc ++ [seg]

/-- The slice assignment `segments[1:-1] = filter(None, segments[1:-1])`
in CPython `urljoin`: keep the first and last elements, drop empty strings
in between. -/
def filterMiddle : List Str → List Str
  | [] => []
  | [a] => [a]
  | a :: b :: rest =>
    a :: ((b :: rest).dropLast.filter (fun s => s ≠ [])) ++ [(b :: rest).getLastD []]

/-- The path-resolution block of CPython `urljoin`, from
`base_parts = bpath.split('/')` down to `'/'.join(resolved_path) or '/'`. -/
def pathResolve (bpath upath : Str) : Str :=
  let base_parts0 := pysplit '/' bpath
  let base_parts := if base_parts0.getLastD [] ≠ [] then base_parts0.dropLast else base_parts0
  let segments :=
    if startswith (pystr "/") upath then pysplit '/' upath
    else filterMiddle (base_parts ++ pysplit '/' upath)
  let resolved0 := segments.foldl dotStep []
  let resolved :=
    if segments.getLastD [] = pystr "." ∨ segments.getLastD [] = pystr ".." then
      resolved0 ++ [[]]
    else resolved0
  let joined := pyjoin '/' resolved
  if joined = [] then pystr "/" else joined

/-- CPython 3.11 `urljoin(base, url)` (with `allow_fragments=True`). -/
def urljoin (base url : Str) : Str :=
  if base = [] then url
  else if url = [] then base
  else
    let b := urlparse base []
    let u := urlparse url b.scheme
    if u.scheme = b.scheme ∧ u.scheme ∈ uses_relative then
      if u.scheme ∈ uses_netloc ∧ u.netloc ≠ [] then
        urlunparse u.scheme u.netloc u.path u.params u.query u.fragment
      else
        let netloc := if u.scheme ∈ uses_netloc then b.netloc else u.netloc
        if u.path = [] ∧ u.params = [] then
          let query := if u.query = [] then b.query else u.query
          urlunparse u.scheme netloc b.path b.params query u.fragment
        else
          urlunparse u.scheme netloc (pathResolve b.path u.path) u.params u.query u.fragment
    else url

end Urllib

namespace Links

/-!
Model of `stac_fastapi/types/links.py`: `INFERRED_LINK_RELS`, `filter_links`
and `resolve_links`.
-/

/-- A persisted link record: a Python dict with at least the `"rel"` and
`"href"` keys; every other entry of the dict (`"type"`, `"method"`, and any
extra keys) is kept, in order, in `rest`. -/
structure Link where
  rel : Str
  href : Str
  rest : List (Str × Str)
deriving DecidableEq, Repr

/-- `INFERRED_LINK_RELS` from `links.py`. -/
def INFERRED_LINK_RELS : List Str :=
  [pystr "self", pystr "item", pystr "parent", pystr "collection", pystr "root",
   pystr "items", pystr "data", pystr "child"]

/-- `filter_links`: remove links whose relation is in `INFERRED_LINK_RELS`. -/
def filter_links (links : List Link) : List Link :=
  links.filter (fun link => decide (link.rel ∉ INFERRED_LINK_RELS))

/-- The first half of the `for` loop body of `resolve_links`: if the href
contains `"http://"` or `"https://"` it is reduced to its `urlsplit` path,
else kept as is. -/
def stripHref (href : Str) : Str :=
  if strIn (pystr "http://") href || strIn (pystr "https://") href then
    (Urllib.urlsplit href []).path
  else href

/-- The body of the `for` loop of `resolve_links`, as the new value of
`link["href"]`: the possibly stripped href is joined against the base url. -/
def resolveHref (base_url href : Str) : Str :=
  Urllib.urljoin base_url (stripHref href)

/-- A character the idempotence theorem excludes: the query, fragment and
params delimiters and the unsafe bytes that `urlsplit` removes. -/
def badChar (c : Char) : Bool :=
  c = '?' || c = '#' || c = ';' || c = '\t' || c = '\r' || c = '\n'

/-- A well-behaved netloc: nonempty, and free of the netloc delimiters and
of the unsafe bytes. -/
def GoodNetloc (N : Str) : Prop :=
  N ≠ [] ∧ ∀ c ∈ N, ¬(c = '/' ∨ c = '?' ∨ c = '#' ∨ c = '\t' ∨ c = '\r' ∨ c = '\n')

/-- A well-behaved base-url path: free of bad characters, either empty or
absolute without being protocol-relative, and free of `.` and `..`
segments. -/
def GoodPath (P : Str) : Prop :=
  (∀ c ∈ P, badChar c = false) ∧
  (P = [] ∨ (startswith (pystr "/") P = true ∧ startswith (pystr "//") P = false)) ∧
  (∀ s ∈ P.splitOn '/', s ≠ pystr "." ∧ s ≠ pystr "..")

/-- A well-behaved resolved absolute path: rooted but not protocol-relative,
free of bad characters and of dot segments. -/
def GoodAbsPath (R : Str) : Prop :=
  startswith (pystr "/") R = true ∧ startswith (pystr "//") R = false ∧
  (∀ c ∈ R, badChar c = false) ∧
  (∀ s ∈ R.splitOn '/', s ≠ pystr "." ∧ s ≠ pystr "..")

/-- A base url for which `resolve_links` is idempotent: an absolute `http`
or `https` url with a nonempty well-behaved netloc and a well-behaved path,
and no query, fragment or params part. -/
def GoodBase (b : Str) : Prop :=
  ∃ S N P, (S = pystr "http" ∨ S = pystr "https") ∧
    b = S ++ pystr "://" ++ N ++ P ∧ GoodNetloc N ∧ GoodPath P

/-- A link href for which `resolve_links` is idempotent, phrased on the
result of the absolute-url-to-path reduction step `stripHref`: the reduced
href carries no query, fragment, params or unsafe characters, and is either
empty, or starts with a character that `urlsplit` does not strip, is not
protocol-relative, has no `:` in its first segment (no scheme), and has no
`.` or `..` segments. -/
def GoodHref (h : Str) : Prop :=
  (∀ c ∈ stripHref h, badChar c = false) ∧
  (stripHref h = [] ∨
    ((∀ c ∈ (stripHref h).take 1, 32 < c.toNat) ∧
     startswith (pystr "//") (stripHref h) = false ∧
     ':' ∉ (stripHref h).takeWhile (fun c => c ≠ '/') ∧
     ∀ s ∈ (stripHref h).splitOn '/', s ≠ pystr "." ∧ s ≠ pystr ".."))

/-- `resolve_links` as a function on link values: filter, then update each
retained link's href in place.  (The in-place mutation of the shared dicts is
modelled separately by `resolve_links_st`.) -/
def resolve_links (links : List Link) (base_url : Str) : List Link :=
  (filter_links links).map (fun link => { link with href := resolveHref base_url link.href })

/-- A placeholder link used for out-of-range store reads. -/
def dfltLink : Link := ⟨[], [], []⟩

/-- `filter_links` on a store: `links` is the list of dict addresses, and the
store maps addresses to dict contents. -/
def filter_links_st (store : List Link) (links : List Nat) : List Nat :=
  links.filter (fun i => decide ((store.getD i dfltLink).rel ∉ INFERRED_LINK_RELS))

/-- `resolve_links` on a store of link dicts: Python mutates each retained
dict (`link["href"] = ...; link.update(...)`) and returns the filtered list
of the very same dict objects.  The result is the store after the loop and
the list of returned addresses. -/
def resolve_links_st (store : List Link) (links : List Nat) (base_url : Str) :
    List Link × List Nat :=
  let filtered := filter_links_st store links
  (filtered.foldl
    (fun st i =>
      let l := st.getD i dfltLink
      st.set i { l with href := resolveHref base_url l.href })
    store,
   filtered)

end Links

namespace Models

/-!
Model of `create_request_model` from `stac_fastapi/api/models.py`, together
with the parts of pydantic v1 and fastapi it manipulates: a model's
`__fields__` mapping, each field's `field_info` and `outer_type_`, and the
`Body(...)` constructor call.
-/

/-- An untyped Python value, as stored in a pydantic `FieldInfo` slot:
`undef` models instances of `pydantic.fields.UndefinedType` (the marker of a
required field), `none` models Python `None`, and `tag` models any other
object by an identifying label. -/
inductive PyVal where
  | none
  | undef
  | str (s : Str)
  | int (n : Int)
  | tag (t : Str)
deriving DecidableEq, Repr

/-- The slots of a pydantic v1 `FieldInfo` that `create_request_model` reads. -/
structure FieldInfo where
  default : PyVal
  default_factory : PyVal
  alias_ : PyVal
  alias_priority : PyVal
  title : PyVal
  description : PyVal
  const : PyVal
  gt : PyVal
  ge : PyVal
  lt : PyVal
  le : PyVal
  multiple_of : PyVal
  min_items : PyVal
  max_items : PyVal
  min_length : PyVal
  max_length : PyVal
  regex : PyVal
  extra : List (Str × PyVal)
deriving DecidableEq, Repr

/-- The keyword arguments captured by the `fastapi.Body(...)` call in
`create_request_model`. -/
structure BodyParam where
  default : PyVal
  default_factory : PyVal
  alias_ : PyVal
  alias_priority : PyVal
  title : PyVal
  description : PyVal
  const : PyVal
  gt : PyVal
  ge : PyVal
  lt : PyVal
  le : PyVal
  multiple_of : PyVal
  min_items : PyVal
  max_items : PyVal
  min_length : PyVal
  max_length : PyVal
  regex : PyVal
  extra : List (Str × PyVal)
deriving DecidableEq, Repr

/-- The `Body(...)` call of `create_request_model`, applied to one field's
`field_info`: every slot is passed through unchanged except the positional
default, which is `None` when `field_info.default` is the undefined marker
(`isinstance(field_info.default, UndefinedType)`). -/
def bodyOf (fi : FieldInfo) : BodyParam where
  default := if fi.default = PyVal.undef then PyVal.none else fi.default
  default_factory := fi.default_factory
  alias_ := fi.alias_
  alias_priority := fi.alias_priority
  title := fi.title
  description := fi.description
  const := fi.const
  gt := fi.gt
  ge := fi.ge
  lt := fi.lt
  le := fi.le
  multiple_of := fi.multiple_of
  min_items := fi.min_items
  max_items := fi.max_items
  min_length := fi.min_length
  max_length := fi.max_length
  regex := fi.regex
  extra := fi.extra

/-- A pydantic v1 `ModelField`, as read by `create_request_model`
(`v.outer_type_` and `v.field_info`). -/
structure ModelField where
  outer_type : Str
  field_info : FieldInfo
deriving DecidableEq, Repr

/-- A payload-style input model (a `pydantic.BaseModel` subclass):
`fields` is its `__fields__` mapping in declaration order, inherited
fields first. -/
structure PydModel where
  fields : List (Str × ModelField)
deriving DecidableEq, Repr

/-- An attribute-style input model (an `APIRequest` subclass), identified by
its class name; its attrs internals are not needed by any claim. -/
structure AttrModel where
  name : Str
deriving DecidableEq, Repr

/-- An input model of `create_request_model`.  Every concrete request-model
class in the source subclasses exactly one of `APIRequest` and
`pydantic.BaseModel`, so the two kinds are disjoint constructors. -/
inductive ReqModel where
  | api (m : AttrModel)
  | pyd (m : PydModel)
deriving DecidableEq, Repr

/-- `issubclass(m, APIRequest)`. -/
def isAPIRequest : ReqModel → Bool
  | .api _ => true
  | .pyd _ => false

/-- `issubclass(m, BaseModel)`. -/
def isBaseModel : ReqModel → Bool
  | .api _ => false
  | .pyd _ => true

/-- The `__fields__` of a model (empty for attribute-style models, which the
payload branch never reaches). -/
def fieldsOf : ReqModel → List (Str × ModelField)
  | .api _ => []
  | .pyd m => m.fields

/-- Assignment `d[k] = v` on a Python dict kept as an ordered association
list: replacing an existing key keeps its position, a new key is appended. -/
def dictSet (k : Str) (v : α) : List (Str × α) → List (Str × α)
  | [] => [(k, v)]
  | (k', v') :: rest => if k' = k then (k, v) :: rest else (k', v') :: dictSet k v rest

/-- `d[k]` lookup on an ordered association list. -/
def dictLookup (k : Str) : List (Str × α) → Option α
  | [] => Option.none
  | (k', v') :: rest => if k' = k then some v' else dictLookup k rest

/-- The result of `create_request_model`:  either `attr.make_class(model_name,
attrs={}, bases=tuple(models))` for the attribute branch, or
`create_model(model_name, **fields, __base__=base_model)` for the payload
branch, with `fields` the composed field dict. -/
inductive ComposedModel where
  | attrClass (name : Str) (bases : List ReqModel)
  | pydModel (name : Str) (fields : List (Str × (Str × BodyParam))) (base : ReqModel)
deriving DecidableEq, Repr

/-- The field dict built by the payload branch of `create_request_model`:
for each model in order, for each of its fields in order,
`fields[k] = (v.outer_type_, Body(...))`. -/
def buildFields (models : List ReqModel) : List (Str × (Str × BodyParam)) :=
  models.foldl
    (fun fs m =>
      (fieldsOf m).foldl (fun fs kv => dictSet kv.1 (kv.2.outer_type, bodyOf kv.2.field_info) fs) fs)
    []

/-- `create_request_model(model_name, base_model, extensions, mixins,
request_type)` from `models.py`.  Each extension is modelled by its
`get_request_model` method; the walrus loop collects the non-`None` results.
A raised `TypeError` is modelled as `Except.error` with the message. -/
def create_request_model (model_name : Str) (base_model : ReqModel)
    (extensions : Option (List (Str → Option ReqModel)))
    (mixins : Option (List ReqModel)) (request_type : Str) :
    Except Str ComposedModel :=
  let extension_models := (extensions.getD []).filterMap (fun ext => ext request_type)
  let mixinsL := mixins.getD []
  let models := base_model :: extension_models ++ mixinsL
  if models.all isAPIRequest then
    Except.ok (ComposedModel.attrClass model_name models)
  else if models.all isBaseModel then
    Except.ok (ComposedModel.pydModel model_name (buildFields models) base_model)
  else
    Except.error (pystr "Mixed Request Model types. Check extension request types.")

end Models

namespace Routes

/-!
Model of `_wrap_response` and `extract_headers` from
`stac_fastapi/api/routes.py`.  `CACHE_CONTROL_CATALOGS_LIST` and
`CACHE_CONTROL_HEADERS` come from `stac_fastapi.api.settings` (configuration,
not part of the adapter); they are passed as explicit parameters.
-/

/-- The configuration values `_wrap_response` reads from
`stac_fastapi.api.settings`. -/
structure WrapConfig where
  cacheControlCatalogsList : List Str
  cacheControlHeaders : Str
deriving Repr

/-- The observable content of the starlette response `_wrap_response`
builds: status code, the `cache-control` header, and the body (`none` for
the empty 204 body). -/
structure PyResponse (α : Type) where
  status : Nat
  cacheControl : Str
  content : Option α
deriving DecidableEq, Repr

/-- `_wrap_response(resp, verb, url)` from `routes.py` (`url_path` is
`url.path`).  `JSONResponse(content=resp, headers=...)` carries status 200;
`None` becomes `Response(status_code=HTTP_204_NO_CONTENT, ...)`. -/
def wrap_response (cfg : WrapConfig) (resp : Option α) (verb url_path : Str) :
    PyResponse α :=
  match resp with
  | some r =>
    if verb = pystr "GET" then
      if startswith (pystr "/catalogs/") url_path then
        let root_catalog := (pysplit '/' url_path).getD 2 []
        if root_catalog ∈ cfg.cacheControlCatalogsList then
          ⟨200, cfg.cacheControlHeaders, some r⟩
        else ⟨200, pystr "max-age=0", some r⟩
      else if url_path = pystr "/" then ⟨200, cfg.cacheControlHeaders, some r⟩
      else ⟨200, pystr "max-age=0", some r⟩
    else ⟨200, pystr "max-age=0", some r⟩
  | Option.none => ⟨204, pystr "max-age=0", Option.none⟩

/-- A value stored in the header/context dict built by `extract_headers`. -/
inductive HeaderVal where
  | workspaces (l : List Str)
  | str (s : Str)
deriving DecidableEq, Repr

/-- `decoded_jwt.get(k, [])` on the decoded claim dict. -/
def claimGet (d : List (Str × List Str)) (k : Str) : List Str :=
  match d with
  | [] => []
  | (k', v) :: rest => if k' = k then v else claimGet rest k

/-- `extract_headers` from `routes.py`.  The external collaborators are
passed as functions: `token_exchange cred scope` is the identity-provider
exchange (called with scope `"workspaces"`), and `jwt_decode token
verify_signature algorithms` is `jwt.decode` (called with
`verify_signature = false` and `algorithms = ["HS256"]`), returning the
decoded claim dict.  `credentials` is the optional bearer credential. -/
def extract_headers (token_exchange : Str → Str → Str)
    (jwt_decode : Str → Bool → List Str → List (Str × List Str))
    (credentials : Option Str) : List (Str × HeaderVal) :=
  match credentials with
  | some cred =>
    let keycloak_token := token_exchange cred (pystr "workspaces")
    let decoded_jwt := jwt_decode keycloak_token false [pystr "HS256"]
    let workspaces := claimGet decoded_jwt (pystr "workspaces")
    [(pystr "X-Workspaces", HeaderVal.workspaces workspaces),
     (pystr "X-Authorized", HeaderVal.str (pystr "authorized"))]
  | Option.none =>
    [(pystr "X-Workspaces", HeaderVal.workspaces []),
     (pystr "X-Authorized", HeaderVal.str (pystr "unauthorized"))]

end Routes

namespace Core

/-!
Model of the conformance-class methods of `BaseCoreClient` in
`stac_fastapi/types/core.py`.  The module-level list
`BASE_CONFORMANCE_CLASSES` (imported from `stac_fastapi.types.conformance`,
whose literal contents are configuration) is a mutable shared object, so the
methods are modelled as state transformers over its current contents.
-/

/-- An API extension, reduced to the attribute the conformance methods read:
`getattr(extension, "conformance_classes", [])`. -/
structure ApiExtension where
  conformance_classes : List Str
deriving DecidableEq, Repr

/-- `list_conformance_classes` from `core.py`: `base_conformance =
BASE_CONFORMANCE_CLASSES` *aliases* the module-level list, and
`base_conformance.extend(extension_classes)` mutates it in place.  The input
is the current contents of `BASE_CONFORMANCE_CLASSES`; the result is the
returned list together with the new contents of the module-level list (the
same object). -/
def list_conformance_classes (base_global : List Str) (extensions : List ApiExtension) :
    List Str × List Str :=
  let base_conformance := extensions.foldl (fun acc e => acc ++ e.conformance_classes) base_global
  (base_conformance, base_conformance)

/-- `conformance_classes` from `core.py`: `self.base_conformance_classes.copy()`
copies the instance's list before extending, so no shared state changes; the
final `list(set(...))` deduplication is modelled keeping first occurrences.
Returns the result together with the (unchanged) instance list. -/
def conformance_classes (base_conformance_classes : List Str)
    (extensions : List ApiExtension) : List Str × List Str :=
  let extended :=
    extensions.foldl (fun acc e => acc ++ e.conformance_classes) base_conformance_classes
  (extended.dedup, base_conformance_classes)

end Core

namespace Models

/-- The last binding of key `k` in a list of key/value pairs (the binding
that survives Python dict assignment processing the list left to right). -/
def lastAssoc (k : Str) : List (Str × α) → Option (Str × α)
  | [] => Option.none
  | p :: rest =>
    match lastAssoc k rest with
    | some q => some q
    | Option.none => if p.1 = k then some p else Option.none

/-- Modelled after pydantic v1 field semantics (external library): a field is
required iff its default is the undefined marker and it has no default
factory; any concrete default (including `None`) makes it optional. -/
def isRequiredField (default default_factory : PyVal) : Bool :=
  default = PyVal.undef && default_factory = PyVal.none

/-- The per-model inner loop of the payload branch: fold the `(k, v)` pairs
into the field dict. -/
def foldPairs (init : List (Str × (Str × BodyParam))) (pairs : List (Str × ModelField)) :
    List (Str × (Str × BodyParam)) :=
  pairs.foldl (fun fs kv => dictSet kv.1 (kv.2.outer_type, bodyOf kv.2.field_info) fs) init

end Models

namespace Fixtures

/-- A `FieldInfo` whose only interesting slot is the default value.  Used for
concrete witnesses and counterexamples. -/
def plainInfo (d : Models.PyVal) : Models.FieldInfo :=
  ⟨d, Models.PyVal.none, Models.PyVal.none, Models.PyVal.none, Models.PyVal.none,
   Models.PyVal.none, Models.PyVal.none, Models.PyVal.none, Models.PyVal.none,
   Models.PyVal.none, Models.PyVal.none, Models.PyVal.none, Models.PyVal.none,
   Models.PyVal.none, Models.PyVal.none, Models.PyVal.none, Models.PyVal.none, []⟩

/-- A payload-style base model `{id : str}` (`id` required). -/
def exBaseModel : Models.ReqModel :=
  Models.ReqModel.pyd ⟨[(pystr "id", ⟨pystr "str", plainInfo Models.PyVal.undef⟩)]⟩

/-- A payload-style extension model `{id : int, limit : int = 10}`. -/
def exExtModel : Models.ReqModel :=
  Models.ReqModel.pyd ⟨[(pystr "id", ⟨pystr "int", plainInfo Models.PyVal.undef⟩),
    (pystr "limit", ⟨pystr "int", plainInfo (Models.PyVal.int 10)⟩)]⟩

/-- An attribute-style model (an `APIRequest` subclass). -/
def exApiModel : Models.ReqModel := Models.ReqModel.api ⟨pystr "CatalogUri"⟩

end Fixtures

namespace Models

theorem dictLookup_dictSet (k k' : Str) (v : α) (l : List (Str × α)) :
    dictLookup k (dictSet k' v l) = if k' = k then some v else dictLookup k l := by
  induction l with
  | nil => simp [dictSet, dictLookup]
  | cons p rest ih =>
    rcases p with ⟨a, b⟩
    by_cases h1 : a = k'
    · by_cases h2 : k' = k
      · simp [dictSet, dictLookup, h1, h2]
      · have h3 : ¬ a = k := fun hak => h2 (h1 ▸ hak)
        simp [dictSet, dictLookup, h1, h2, h3]
    · by_cases h2 : k' = k
      · subst h2
        simp [dictSet, dictLookup, h1, ih]
      · have h2' : ¬ k = k' := fun h => h2 h.symm
        by_cases h3 : a = k <;> simp [dictSet, dictLookup, h1, h2, h2', h3, ih]

theorem dictLookup_foldPairs (k : Str) (pairs : List (Str × ModelField))
    (init : List (Str × (Str × BodyParam))) :
    dictLookup k (foldPairs init pairs) =
      match lastAssoc k pairs with
      | some p => some (p.2.outer_type, bodyOf p.2.field_info)
      | Option.none => dictLookup k init := by
  induction pairs generalizing init with
  | nil => simp [foldPairs, lastAssoc]
  | cons kv rest ih =>
    show dictLookup k (foldPairs (dictSet kv.1 (kv.2.outer_type, bodyOf kv.2.field_info) init) rest) = _
    rw [ih]
    cases h : lastAssoc k rest with
    | some q => simp [lastAssoc, h]
    | none =>
      by_cases hk : kv.1 = k <;>
        simp [lastAssoc, h, hk, dictLookup_dictSet]

theorem foldPairs_append (init : List (Str × (Str × BodyParam)))
    (xs ys : List (Str × ModelField)) :
    foldPairs init (xs ++ ys) = foldPairs (foldPairs init xs) ys := by
  simp [foldPairs, List.foldl_append]

theorem buildFields_eq_foldPairs (models : List ReqModel) :
    buildFields models = foldPairs [] (models.flatMap fieldsOf) := by
  suffices h : ∀ init, models.foldl
      (fun fs m =>
        (fieldsOf m).foldl
          (fun fs kv => dictSet kv.1 (kv.2.outer_type, bodyOf kv.2.field_info) fs) fs)
      init = foldPairs init (models.flatMap fieldsOf) by
    exact h []
  induction models with
  | nil => intro init; simp [foldPairs]
  | cons m rest ih =>
    intro init
    simp only [List.foldl_cons, List.flatMap_cons, foldPairs_append]
    exact ih _

theorem isAPIRequest_eq_false_of_isBaseModel {m : ReqModel} (h : isBaseModel m = true) :
    isAPIRequest m = false := by
  cases m <;> simp [isBaseModel, isAPIRequest] at h ⊢

theorem isBaseModel_eq_false_of_isAPIRequest {m : ReqModel} (h : isAPIRequest m = true) :
    isBaseModel m = false := by
  cases m <;> simp [isBaseModel, isAPIRequest] at h ⊢

theorem create_request_model_payload (model_name : Str) (base_model : ReqModel)
    (extensions : Option (List (Str → Option ReqModel))) (mixins : Option (List ReqModel))
    (request_type : Str) (models : List ReqModel)
    (hm : models =
      base_model :: (extensions.getD []).filterMap (fun ext => ext request_type) ++
        mixins.getD [])
    (hall : models.all isBaseModel = true) :
    create_request_model model_name base_model extensions mixins request_type =
      Except.ok (ComposedModel.pydModel model_name (buildFields models) base_model) := by
  have hbase : isBaseModel base_model = true := by
    refine (List.all_eq_true.mp hall) base_model ?_
    rw [hm]; exact List.mem_cons_self _ _
  have hnotall : models.all isAPIRequest = false := by
    refine List.all_eq_false.mpr ⟨base_model, ?_, ?_⟩
    · rw [hm]; exact List.mem_cons_self _ _
    · simp [isAPIRequest_eq_false_of_isBaseModel hbase]
  simp only [create_request_model]
  rw [← hm, hnotall, hall]
  simp

end Models

/-! ### String lemmas for the link-resolver claims -/

theorem breakAt_eq_some {c : Char} : ∀ {s pre rest : Str},
    breakAt c s = (pre, some rest) → c ∉ pre ∧ s = pre ++ c :: rest := by
  intro s
  induction s with
  | nil =>
    intro pre rest h
    rw [show breakAt c ([] : Str) = (([] : Str), (none : Option Str)) from rfl] at h
    have h2 := (Prod.ext_iff.mp h).2
    simp at h2
  | cons a t ih =>
    intro pre rest h
    by_cases hac : a = c
    · subst hac
      rw [breakAt, if_pos rfl] at h
      rw [Prod.mk.injEq] at h
      obtain ⟨h1, h2⟩ := h
      cases h1
      cases Option.some.inj h2
      exact ⟨by simp, rfl⟩
    · rcases hbk : breakAt c t with ⟨p', o⟩
      rw [breakAt, if_neg hac, hbk] at h
      dsimp only at h
      rw [Prod.mk.injEq] at h
      obtain ⟨h1, h2⟩ := h
      subst h2
      obtain ⟨hnin, hteq⟩ := ih hbk
      cases h1
      refine ⟨?_, ?_⟩
      · simp only [List.mem_cons, not_or]
        exact ⟨fun he => hac he.symm, hnin⟩
      · simp [hteq]

theorem breakAt_of_not_mem {c : Char} : ∀ {s : Str}, c ∉ s → breakAt c s = (s, none) := by
  intro s
  induction s with
  | nil => intro h; rfl
  | cons a t ih =>
    intro h
    have hac : ¬ a = c := fun he => h (he ▸ List.mem_cons_self a t)
    rw [breakAt, if_neg hac, ih (fun hm => h (List.mem_cons_of_mem _ hm))]

theorem breakAt_append {c : Char} : ∀ {p : Str} (r : Str), c ∉ p →
    breakAt c (p ++ c :: r) = (p, some r) := by
  intro p
  induction p with
  | nil =>
    intro r _
    show breakAt c (c :: r) = ([], some r)
    rw [breakAt, if_pos rfl]
  | cons a t ih =>
    intro r h
    have hac : ¬ a = c := fun he => h (he ▸ List.mem_cons_self a t)
    rw [List.cons_append, breakAt, if_neg hac,
      ih r (fun hm => h (List.mem_cons_of_mem _ hm))]

theorem strIn_of_isPrefixOf {p s : Str} (h : p.isPrefixOf s = true) : strIn p s = true := by
  unfold strIn
  rw [List.any_eq_true]
  exact ⟨s, (List.mem_tails _ _).mpr (List.suffix_refl s), h⟩

theorem strIn_single_eq_false {c : Char} {s : Str} (h : c ∉ s) : strIn [c] s = false := by
  unfold strIn
  rw [List.any_eq_false]
  intro t ht
  rw [List.mem_tails] at ht
  cases t with
  | nil => simp [List.isPrefixOf]
  | cons a t2 =>
    obtain ⟨pre0, hpre0⟩ := ht
    have ha : a ∈ s := by
      rw [← hpre0]
      exact List.mem_append.mpr (Or.inr (List.mem_cons_self _ _))
    have hca : (c == a) = false := beq_eq_false_iff_ne.mpr (fun he => h (he ▸ ha))
    simp [List.isPrefixOf, hca]

theorem takeWhile_append_all {p : Char → Bool} : ∀ {N : Str} (P : Str),
    (∀ c ∈ N, p c = true) → (N ++ P).takeWhile p = N ++ P.takeWhile p := by
  intro N
  induction N with
  | nil => intro P _; simp
  | cons a t ih =>
    intro P hN
    rw [List.cons_append, List.takeWhile_cons, hN a (List.mem_cons_self _ _)]
    rw [ih P (fun c hc => hN c (List.mem_cons_of_mem _ hc))]
    rfl

theorem dropWhile_append_all {p : Char → Bool} : ∀ {N : Str} (P : Str),
    (∀ c ∈ N, p c = true) → (N ++ P).dropWhile p = P.dropWhile p := by
  intro N
  induction N with
  | nil => intro P _; simp
  | cons a t ih =>
    intro P hN
    rw [List.cons_append, List.dropWhile_cons, hN a (List.mem_cons_self _ _)]
    exact ih P (fun c hc => hN c (List.mem_cons_of_mem _ hc))

theorem removeUnsafe_eq_self {s : Str}
    (h : ∀ c ∈ s, ¬(c = '\t' ∨ c = '\r' ∨ c = '\n')) : Urllib.removeUnsafe s = s := by
  rw [Urllib.removeUnsafe, List.filter_eq_self]
  intro a ha
  have h1 : ¬ a = '\t' := fun he => h a ha (Or.inl he)
  have h2 : ¬ a = '\r' := fun he => h a ha (Or.inr (Or.inl he))
  have h3 : ¬ a = '\n' := fun he => h a ha (Or.inr (Or.inr he))
  simp [h1, h2, h3]

theorem removeUnsafe_eq_self_of_bad {s : Str} (h : ∀ c ∈ s, Links.badChar c = false) :
    Urllib.removeUnsafe s = s := by
  refine removeUnsafe_eq_self (fun c hc => ?_)
  have := h c hc
  intro hor
  rcases hor with h1 | h1 | h1 <;> simp [Links.badChar, h1] at this

theorem lstripControl_eq_self {s : Str} (h : ∀ c ∈ s.take 1, 32 < c.toNat) :
    Urllib.lstripControl s = s := by
  cases s with
  | nil => rfl
  | cons a t =>
    have ha := h a (by simp)
    have hna : ¬ (a.toNat ≤ 32) := Nat.not_le.mpr ha
    rw [Urllib.lstripControl, List.dropWhile_cons]
    simp [hna]

theorem mem_intersperse_of_mem {sep : Str} : ∀ {l : List Str} {x : Str},
    x ∈ l → x ∈ l.intersperse sep := by
  intro l
  induction l with
  | nil => intro x hx; simp at hx
  | cons a t ih =>
    intro x hx
    cases t with
    | nil => simpa using hx
    | cons b t2 =>
      rw [List.intersperse_cons_cons]
      rcases List.mem_cons.mp hx with rfl | hx2
      · exact List.mem_cons_self _ _
      · exact List.mem_cons_of_mem _ (List.mem_cons_of_mem _ (ih hx2))

theorem mem_of_mem_splitOn {c a : Char} {s piece : Str} (hp : piece ∈ s.splitOn c)
    (ha : a ∈ piece) : a ∈ s := by
  have hs := List.intercalate_splitOn s c
  rw [← hs, List.intercalate, List.mem_flatten]
  exact ⟨piece, mem_intersperse_of_mem hp, ha⟩

theorem not_mem_splitOn_self {c : Char} : ∀ {s piece : Str},
    piece ∈ s.splitOn c → c ∉ piece := by
  intro s
  induction s with
  | nil =>
    intro piece hp
    simp only [List.splitOn_nil, List.mem_singleton] at hp
    simp [hp]
  | cons a t ih =>
    intro piece hp
    by_cases hac : a = c
    · subst hac
      rw [List.splitOn, List.splitOnP_cons] at hp
      simp only [beq_self_eq_true, if_pos] at hp
      rcases List.mem_cons.mp hp with rfl | hp2
      · simp
      · exact ih hp2
    · rw [List.splitOn, List.splitOnP_cons] at hp
      have hbeq : (a == c) = false := beq_eq_false_iff_ne.mpr hac
      rw [hbeq] at hp
      simp only [Bool.false_eq_true, if_false] at hp
      rcases hsp : List.splitOnP (fun b => b == c) t with _ | ⟨h0, L⟩
      · exact absurd hsp (List.splitOnP_ne_nil _ _)
      · rw [hsp] at hp
        simp only [List.modifyHead] at hp
        rcases List.mem_cons.mp hp with rfl | hp2
        · have hh0 : c ∉ h0 := ih (by rw [List.splitOn, hsp]; exact List.mem_cons_self _ _)
          simp only [List.mem_cons, not_or]
          exact ⟨fun he => hac he.symm, hh0⟩
        · exact ih (by rw [List.splitOn, hsp]; exact List.mem_cons_of_mem _ hp2)

theorem splitOn_cons_self (c : Char) (t : Str) : (c :: t).splitOn c = [] :: t.splitOn c := by
  rw [List.splitOn, List.splitOnP_cons]
  simp [List.splitOn]

theorem splitOn_ne_nil (c : Char) (s : Str) : s.splitOn c ≠ [] := List.splitOnP_ne_nil _ _

theorem getLastD_mem {l : List Str} (h : l ≠ []) (d : Str) : l.getLastD d ∈ l := by
  rw [List.getLastD_eq_getLast?, List.getLast?_eq_getLast l h]
  exact List.getLast_mem h

theorem pyjoin_cons_cons (c : Char) (x y : Str) (rest : List Str) :
    pyjoin c (x :: y :: rest) = x ++ c :: pyjoin c (y :: rest) := by
  simp [pyjoin, List.intercalate, List.intersperse_cons_cons]

theorem mem_pyjoin {c a : Char} : ∀ {L : List Str}, a ∈ pyjoin c L →
    a = c ∨ ∃ s ∈ L, a ∈ s := by
  intro L
  induction L with
  | nil => intro h; simp [pyjoin, List.intercalate] at h
  | cons x t ih =>
    cases t with
    | nil =>
      intro h
      right
      exact ⟨x, by simp, by simpa [pyjoin, List.intercalate] using h⟩
    | cons y t2 =>
      intro h
      rw [pyjoin_cons_cons] at h
      rcases List.mem_append.mp h with hx | hrest
      · right; exact ⟨x, by simp, hx⟩
      · rcases List.mem_cons.mp hrest with rfl | h2
        · left; rfl
        · rcases ih h2 with h3 | ⟨s, hs, has⟩
          · left; exact h3
          · right; exact ⟨s, List.mem_cons_of_mem _ hs, has⟩

theorem foldl_dotStep_eq_append {segs : List Str}
    (h : ∀ s ∈ segs, s ≠ pystr "." ∧ s ≠ pystr "..") :
    ∀ acc, segs.foldl Urllib.dotStep acc = acc ++ segs := by
  induction segs with
  | nil => intro acc; simp
  | cons s t ih =>
    intro acc
    have hs := h s (List.mem_cons_self _ _)
    rw [List.foldl_cons]
    rw [show Urllib.dotStep acc s = acc ++ [s] from by
      rw [Urllib.dotStep, if_neg hs.2, if_neg hs.1]]
    rw [ih (fun x hx => h x (List.mem_cons_of_mem _ hx)) (acc ++ [s])]
    simp

/-! ### urllib parse and unparse lemmas -/

theorem schemeSplit_of_colon_after_slash {u : Str}
    (hcolon : ':' ∉ u.takeWhile (fun c => c ≠ '/')) :
    Urllib.schemeSplit u = (none, u) := by
  rw [Urllib.schemeSplit]
  rcases hbk : breakAt ':' u with ⟨pre, o⟩
  cases o with
  | none => rfl
  | some r =>
    obtain ⟨hnin, hueq⟩ := breakAt_eq_some hbk
    cases pre with
    | nil => rfl
    | cons c0 pr =>
      have hslash : '/' ∈ c0 :: pr := by
        by_contra hns
        apply hcolon
        have hall : ∀ c ∈ c0 :: pr, (fun c => decide (c ≠ '/')) c = true := by
          intro c hc
          simp only [decide_eq_true_eq]
          exact fun he => hns (he ▸ hc)
        rw [hueq, takeWhile_append_all _ hall]
        refine List.mem_append.mpr (Or.inr ?_)
        rw [List.takeWhile_cons]
        simp
      have hallf : (c0 :: pr).all Urllib.isSchemeChar = false :=
        List.all_eq_false.mpr ⟨'/', hslash, by simp [Urllib.isSchemeChar]⟩
      dsimp only
      rw [hallf]
      simp

theorem netlocSplit_of_not_pp {u : Str} (hpp : startswith (pystr "//") u = false) :
    Urllib.netlocSplit u = ([], u) := by
  rw [Urllib.netlocSplit, hpp]
  simp

theorem netlocSplit_abs {N P : Str}
    (hN : ∀ c ∈ N, ¬(c = '/' ∨ c = '?' ∨ c = '#'))
    (hP : P = [] ∨ startswith (pystr "/") P = true) :
    Urllib.netlocSplit ('/' :: '/' :: (N ++ P)) = (N, P) := by
  rw [Urllib.netlocSplit]
  have hpp : startswith (pystr "//") ('/' :: '/' :: (N ++ P)) = true := by
    simp [startswith, pystr, List.isPrefixOf]
  rw [if_pos hpp]
  dsimp only
  have hNall : ∀ c ∈ N, (fun c => !Urllib.isNetlocDelim c) c = true := by
    intro c hc
    have := hN c hc
    have h1 : ¬ c = '/' := fun he => this (Or.inl he)
    have h2 : ¬ c = '?' := fun he => this (Or.inr (Or.inl he))
    have h3 : ¬ c = '#' := fun he => this (Or.inr (Or.inr he))
    simp [Urllib.isNetlocDelim, h1, h2, h3]
  have htkP : P.takeWhile (fun c => !Urllib.isNetlocDelim c) = [] ∧
      P.dropWhile (fun c => !Urllib.isNetlocDelim c) = P := by
    rcases hP with rfl | hP
    · simp
    · cases P with
      | nil => simp
      | cons p0 P' =>
        have hp0 : p0 = '/' := by
          simp [startswith, pystr, List.isPrefixOf] at hP
          exact hP.symm
        subst hp0
        constructor
        · rw [List.takeWhile_cons]
          simp [Urllib.isNetlocDelim]
        · rw [List.dropWhile_cons]
          simp [Urllib.isNetlocDelim]
  have hdrop : List.drop 2 ('/' :: '/' :: (N ++ P)) = N ++ P := rfl
  rw [hdrop, takeWhile_append_all _ hNall, dropWhile_append_all _ hNall, htkP.1, htkP.2]
  simp

theorem fragmentSplit_no {u : Str} (h : '#' ∉ u) : Urllib.fragmentSplit u = (u, []) := by
  rw [Urllib.fragmentSplit, breakAt_of_not_mem h]

theorem querySplit_no {u : Str} (h : '?' ∉ u) : Urllib.querySplit u = (u, []) := by
  rw [Urllib.querySplit, breakAt_of_not_mem h]

theorem urlsplit_rel (u d : Str)
    (hd : Urllib.removeUnsafe (Urllib.stripControl d) = d)
    (hbad : ∀ c ∈ u, Links.badChar c = false)
    (hhead : ∀ c ∈ u.take 1, 32 < c.toNat)
    (hpp : startswith (pystr "//") u = false)
    (hcolon : ':' ∉ u.takeWhile (fun c => c ≠ '/')) :
    Urllib.urlsplit u d = ⟨d, [], u, [], []⟩ := by
  have hu1 : Urllib.removeUnsafe (Urllib.lstripControl u) = u := by
    rw [lstripControl_eq_self hhead, removeUnsafe_eq_self_of_bad hbad]
  have hhash : '#' ∉ u := fun hm => by have := hbad '#' hm; simp [Links.badChar] at this
  have hq : '?' ∉ u := fun hm => by have := hbad '?' hm; simp [Links.badChar] at this
  simp only [Urllib.urlsplit]
  rw [hu1, hd, schemeSplit_of_colon_after_slash hcolon]
  dsimp only
  rw [netlocSplit_of_not_pp hpp]
  dsimp only
  rw [fragmentSplit_no hhash]
  dsimp only
  rw [querySplit_no hq]
  rfl

theorem urlsplit_abs (S N P d : Str)
    (hS : S = pystr "http" ∨ S = pystr "https") (hN1 : N ≠ [])
    (hN2 : ∀ c ∈ N, ¬(c = '/' ∨ c = '?' ∨ c = '#' ∨ c = '\t' ∨ c = '\r' ∨ c = '\n'))
    (hPbad : ∀ c ∈ P, Links.badChar c = false)
    (hProot : P = [] ∨ startswith (pystr "/") P = true)
    (hd : Urllib.removeUnsafe (Urllib.stripControl d) = d) :
    Urllib.urlsplit (S ++ pystr "://" ++ N ++ P) d = ⟨S, N, P, [], []⟩ := by
  have hhashP : '#' ∉ P := fun hm => by have := hPbad '#' hm; simp [Links.badChar] at this
  have hqP : '?' ∉ P := fun hm => by have := hPbad '?' hm; simp [Links.badChar] at this
  have hshape : S ++ pystr "://" ++ N ++ P = S ++ ':' :: '/' :: '/' :: (N ++ P) := by
    simp only [pystr, List.append_assoc]
    rfl
  have hunsafe : ∀ c ∈ S ++ ':' :: '/' :: '/' :: (N ++ P),
      ¬(c = '\t' ∨ c = '\r' ∨ c = '\n') := by
    intro c hc hor
    rcases List.mem_append.mp hc with hcS | hcR
    · rcases hS with rfl | rfl <;>
        (rcases hor with h1 | h1 | h1 <;> (subst h1; revert hcS; decide))
    · rcases List.mem_cons.mp hcR with rfl | hcR
      · rcases hor with h1 | h1 | h1 <;> exact absurd h1 (by decide)
      · rcases List.mem_cons.mp hcR with rfl | hcR
        · rcases hor with h1 | h1 | h1 <;> exact absurd h1 (by decide)
        · rcases List.mem_cons.mp hcR with rfl | hcR
          · rcases hor with h1 | h1 | h1 <;> exact absurd h1 (by decide)
          · rcases List.mem_append.mp hcR with hcN | hcP
            · exact hN2 c hcN (by tauto)
            · have := hPbad c hcP
              rcases hor with h1 | h1 | h1 <;> simp [Links.badChar, h1] at this
  have hu1 : Urllib.removeUnsafe
      (Urllib.lstripControl (S ++ ':' :: '/' :: '/' :: (N ++ P))) =
      S ++ ':' :: '/' :: '/' :: (N ++ P) := by
    have hlh : ∀ c ∈ (S ++ ':' :: '/' :: '/' :: (N ++ P)).take 1, 32 < c.toNat := by
      rcases hS with rfl | rfl <;> (intro c hc; simp [pystr] at hc; subst hc; decide)
    rw [lstripControl_eq_self hlh, removeUnsafe_eq_self hunsafe]
  have hss : Urllib.schemeSplit (S ++ ':' :: '/' :: '/' :: (N ++ P)) =
      (some S, '/' :: '/' :: (N ++ P)) := by
    rcases hS with rfl | rfl
    · rw [Urllib.schemeSplit, breakAt_append _ (by decide)]
      rw [show (pystr "http") = 'h' :: 't' :: 't' :: 'p' :: [] from rfl]
      dsimp only
      rw [if_pos (by decide)]
      rfl
    · rw [Urllib.schemeSplit, breakAt_append _ (by decide)]
      rw [show (pystr "https") = 'h' :: 't' :: 't' :: 'p' :: 's' :: [] from rfl]
      dsimp only
      rw [if_pos (by decide)]
      rfl
  have hns : Urllib.netlocSplit ('/' :: '/' :: (N ++ P)) = (N, P) :=
    netlocSplit_abs (fun c hc hor => hN2 c hc (by tauto)) hProot
  rw [hshape]
  simp only [Urllib.urlsplit]
  rw [hu1, hd, hss]
  dsimp only
  rw [hns]
  dsimp only
  rw [fragmentSplit_no hhashP]
  dsimp only
  rw [querySplit_no hqP]
  rfl

theorem urlparse_rel (u d : Str)
    (hd : Urllib.removeUnsafe (Urllib.stripControl d) = d)
    (hbad : ∀ c ∈ u, Links.badChar c = false)
    (hhead : ∀ c ∈ u.take 1, 32 < c.toNat)
    (hpp : startswith (pystr "//") u = false)
    (hcolon : ':' ∉ u.takeWhile (fun c => c ≠ '/')) :
    Urllib.urlparse u d = ⟨d, [], u, [], [], []⟩ := by
  have hsemi : ';' ∉ u := fun hm => by have := hbad ';' hm; simp [Links.badChar] at this
  rw [Urllib.urlparse, urlsplit_rel u d hd hbad hhead hpp hcolon]
  rw [if_neg (by simp [strIn_single_eq_false hsemi])]

theorem urlparse_abs (S N P d : Str)
    (hS : S = pystr "http" ∨ S = pystr "https") (hN1 : N ≠ [])
    (hN2 : ∀ c ∈ N, ¬(c = '/' ∨ c = '?' ∨ c = '#' ∨ c = '\t' ∨ c = '\r' ∨ c = '\n'))
    (hPbad : ∀ c ∈ P, Links.badChar c = false)
    (hProot : P = [] ∨ startswith (pystr "/") P = true)
    (hd : Urllib.removeUnsafe (Urllib.stripControl d) = d) :
    Urllib.urlparse (S ++ pystr "://" ++ N ++ P) d = ⟨S, N, P, [], [], []⟩ := by
  have hsemi : ';' ∉ P := fun hm => by have := hPbad ';' hm; simp [Links.badChar] at this
  rw [Urllib.urlparse, urlsplit_abs S N P d hS hN1 hN2 hPbad hProot hd]
  rw [if_neg (by simp [strIn_single_eq_false hsemi])]

theorem urlunparse_abs (S N p : Str)
    (hS : S = pystr "http" ∨ S = pystr "https") (hN : N ≠ [])
    (hp : p = [] ∨ startswith (pystr "/") p = true) :
    Urllib.urlunparse S N p [] [] [] = S ++ pystr "://" ++ N ++ p := by
  rw [Urllib.urlunparse]
  rw [if_neg (by simp)]
  rw [Urllib.urlunsplit]
  rw [if_pos (Or.inl hN)]
  have hcond : ¬ (p ≠ [] ∧ ¬ startswith (pystr "/") p = true) := by
    rcases hp with rfl | hp
    · simp
    · rintro ⟨_, h2⟩
      exact h2 hp
  rw [if_neg hcond]
  have hSne : S ≠ [] := by rcases hS with rfl | rfl <;> simp [pystr]
  rw [if_pos hSne]
  rw [if_neg (by simp), if_neg (by simp)]
  simp only [pystr, List.append_assoc]
  rfl

/-! ### Path resolution lemmas -/

theorem splitOn_eq_single {c : Char} {s : Str} (h : c ∉ s) : s.splitOn c = [s] := by
  rw [List.splitOn]
  refine List.splitOnP_eq_single _ _ ?_
  intro y hy hbeq
  exact h ((eq_of_beq hbeq) ▸ hy)

theorem startswith_single_cons {c : Char} {t : Str} :
    startswith [c] (c :: t) = true := by
  simp [startswith, List.isPrefixOf]

theorem startswith_cons_false {c : Char} {w : Str}
    (h : w = [] ∨ ∀ c2 ∈ w.take 1, c2 ≠ c) : startswith [c, c] (c :: w) = false := by
  rcases h with rfl | h
  · simp [startswith, List.isPrefixOf]
  · cases w with
    | nil => simp [startswith, List.isPrefixOf]
    | cons a t =>
      have ha : a ≠ c := h a (by simp)
      have hca : (c == a) = false := beq_eq_false_iff_ne.mpr (fun he => ha he.symm)
      simp [startswith, List.isPrefixOf, hca]

theorem pathResolve_rooted (bp : Str) {u : Str}
    (hroot : startswith (pystr "/") u = true)
    (hdot : ∀ s ∈ u.splitOn '/', s ≠ pystr "." ∧ s ≠ pystr "..") :
    Urllib.pathResolve bp u = u := by
  have hne : u ≠ [] := by
    intro h
    subst h
    simp [startswith, pystr, List.isPrefixOf] at hroot
  have hfold : (pysplit '/' u).foldl Urllib.dotStep [] = pysplit '/' u := by
    rw [pysplit, foldl_dotStep_eq_append hdot []]
    simp
  have hlastmem : (pysplit '/' u).getLastD [] ∈ pysplit '/' u :=
    getLastD_mem (splitOn_ne_nil '/' u) []
  have hlast := hdot _ hlastmem
  have hcond : ¬ ((pysplit '/' u).getLastD [] = pystr "." ∨
      (pysplit '/' u).getLastD [] = pystr "..") := not_or.mpr ⟨hlast.1, hlast.2⟩
  have hjoin : pyjoin '/' (pysplit '/' u) = u := by
    rw [pyjoin, pysplit]
    exact List.intercalate_splitOn u '/'
  simp only [Urllib.pathResolve, hroot, eq_self_iff_true, if_true]
  rw [hfold, if_neg hcond, hjoin, if_neg hne]

theorem base_parts_shape {P : Str}
    (hPshape : P = [] ∨ startswith (pystr "/") P = true) :
    ∃ bp', (if (pysplit '/' P).getLastD [] ≠ [] then (pysplit '/' P).dropLast
            else pysplit '/' P) = ([] : Str) :: bp' ∧
      ∀ s ∈ ([] : Str) :: bp', s ∈ pysplit '/' P := by
  rcases hPshape with rfl | hroot
  · exact ⟨[], by decide, by decide⟩
  · cases P with
    | nil => simp [startswith, pystr, List.isPrefixOf] at hroot
    | cons p0 t =>
      have hp0 : p0 = '/' := by
        simp [startswith, pystr, List.isPrefixOf] at hroot
        exact hroot.symm
      subst hp0
      have hsp : pysplit '/' ('/' :: t) = ([] : Str) :: t.splitOn '/' := by
        rw [pysplit, splitOn_cons_self]
      rw [hsp]
      by_cases hlast : ((([] : Str) :: t.splitOn '/').getLastD [] ≠ [])
      · have hts_ne : t.splitOn '/' ≠ [] := splitOn_ne_nil '/' t
        obtain ⟨a, ts', hts⟩ : ∃ a ts', t.splitOn '/' = a :: ts' := by
          cases hc : t.splitOn '/' with
          | nil => exact absurd hc hts_ne
          | cons a ts' => exact ⟨a, ts', rfl⟩
        rw [hts] at hlast ⊢
        refine ⟨(a :: ts').dropLast, ?_, ?_⟩
        · rw [if_pos hlast]
          rfl
        · intro s hs
          rcases List.mem_cons.mp hs with rfl | hs2
          · exact List.mem_cons_self _ _
          · exact List.mem_cons_of_mem _ ((List.dropLast_sublist _).subset hs2)
      · exact ⟨t.splitOn '/', by rw [if_neg hlast], fun s hs => hs⟩

theorem pyjoin_single (c : Char) (x : Str) : pyjoin c [x] = x := by
  simp [pyjoin, List.intercalate]

theorem pathResolve_good {P u : Str} (hP : Links.GoodPath P) (hu : u ≠ [])
    (hpp : startswith (pystr "//") u = false)
    (hbad : ∀ c ∈ u, Links.badChar c = false)
    (hdot : ∀ s ∈ u.splitOn '/', s ≠ pystr "." ∧ s ≠ pystr "..") :
    Links.GoodAbsPath (Urllib.pathResolve P u) := by
  obtain ⟨hPbad, hPshape, hPdot⟩ := hP
  by_cases hroot : startswith (pystr "/") u = true
  · rw [pathResolve_rooted P hroot hdot]
    exact ⟨hroot, hpp, hbad, hdot⟩
  · have hroot' : startswith (pystr "/") u = false := eq_false_of_ne_true hroot
    obtain ⟨bp', hB, hBmem⟩ :=
      base_parts_shape (hPshape.imp (fun h => h) (fun h => h.1))
    have hUne : pysplit '/' u ≠ [] := splitOn_ne_nil '/' u
    have hWne : bp' ++ pysplit '/' u ≠ [] :=
      fun h => hUne (List.append_eq_nil.mp h).2
    obtain ⟨y, w, hw⟩ : ∃ y w, bp' ++ pysplit '/' u = y :: w := by
      cases hc : bp' ++ pysplit '/' u with
      | nil => exact absurd hc hWne
      | cons y w => exact ⟨y, w, rfl⟩
    obtain ⟨mid, hmid_def⟩ :
        ∃ mid, mid = (y :: w).dropLast.filter (fun s => decide (s ≠ [])) := ⟨_, rfl⟩
    obtain ⟨last, hlast_def⟩ : ∃ last, last = (y :: w).getLastD [] := ⟨_, rfl⟩
    have hfm : Urllib.filterMiddle ((([] : Str) :: bp') ++ pysplit '/' u) =
        (([] : Str) :: mid) ++ [last] := by
      rw [List.cons_append, hw, hmid_def, hlast_def]
      rfl
    have hmemP : ∀ s ∈ (([] : Str) :: mid) ++ [last],
        s = [] ∨ s ∈ pysplit '/' P ∨ s ∈ pysplit '/' u := by
      intro s hs
      have hsw : s ∈ y :: w → s = [] ∨ s ∈ pysplit '/' P ∨ s ∈ pysplit '/' u := by
        intro hsyw
        rw [← hw] at hsyw
        rcases List.mem_append.mp hsyw with hbp | hU
        · exact Or.inr (Or.inl (hBmem s (List.mem_cons_of_mem _ hbp)))
        · exact Or.inr (Or.inr hU)
      rcases List.mem_append.mp hs with hs1 | hl
      · rcases List.mem_cons.mp hs1 with rfl | hm
        · exact Or.inl rfl
        · rw [hmid_def] at hm
          exact hsw ((List.dropLast_sublist _).subset (List.mem_of_mem_filter hm))
      · have hsl : s = last := List.mem_singleton.mp hl
        refine hsw ?_
        rw [hsl, hlast_def]
        exact getLastD_mem (List.cons_ne_nil y w) []
    have hsegdot : ∀ s ∈ (([] : Str) :: mid) ++ [last],
        s ≠ pystr "." ∧ s ≠ pystr ".." := by
      intro s hs
      rcases hmemP s hs with rfl | hsP | hsU
      · exact ⟨by decide, by decide⟩
      · exact hPdot s hsP
      · exact hdot s hsU
    have hsegslash : ∀ s ∈ (([] : Str) :: mid) ++ [last], '/' ∉ s := by
      intro s hs
      rcases hmemP s hs with rfl | hsP | hsU
      · simp
      · exact not_mem_splitOn_self hsP
      · exact not_mem_splitOn_self hsU
    have hsegbad : ∀ s ∈ (([] : Str) :: mid) ++ [last],
        ∀ c ∈ s, Links.badChar c = false := by
      intro s hs c hc
      rcases hmemP s hs with rfl | hsP | hsU
      · simp at hc
      · exact hPbad c (mem_of_mem_splitOn hsP hc)
      · exact hbad c (mem_of_mem_splitOn hsU hc)
    have hsegne : ((([] : Str) :: mid) ++ [last]) ≠ [] := by simp
    have hfold : (((([] : Str) :: mid) ++ [last]).foldl Urllib.dotStep []) =
        (([] : Str) :: mid) ++ [last] := by
      rw [foldl_dotStep_eq_append hsegdot []]
      simp
    have hlastseg := hsegdot _ (getLastD_mem hsegne [])
    have hcond : ¬ ((((([] : Str) :: mid) ++ [last]).getLastD []) = pystr "." ∨
        (((([] : Str) :: mid) ++ [last]).getLastD []) = pystr "..") :=
      not_or.mpr ⟨hlastseg.1, hlastseg.2⟩
    have hmid_ne_nil : ∀ s2 ∈ mid, s2 ≠ [] := by
      intro s2 hs2
      rw [hmid_def] at hs2
      exact of_decide_eq_true (List.mem_filter.mp hs2).2
    have hjoin_eq : pyjoin '/' ((([] : Str) :: mid) ++ [last]) =
        '/' :: pyjoin '/' (mid ++ [last]) := by
      cases mid with
      | nil =>
        simp only [List.cons_append, List.nil_append]
        rw [pyjoin_cons_cons]
        rfl
      | cons m0 mid' =>
        simp only [List.cons_append]
        rw [pyjoin_cons_cons]
        rfl
    have hJhead : pyjoin '/' (mid ++ [last]) = [] ∨
        ∀ c2 ∈ (pyjoin '/' (mid ++ [last])).take 1, c2 ≠ '/' := by
      cases hm : mid with
      | nil =>
        rw [List.nil_append, pyjoin_single]
        cases hl : last with
        | nil => exact Or.inl rfl
        | cons c0 t0 =>
          refine Or.inr ?_
          intro c2 hc2
          have hc2' : c2 = c0 := by simpa using hc2
          subst hc2'
          have hnl : '/' ∉ last := hsegslash last (by simp)
          rw [hl] at hnl
          exact fun he => hnl (he ▸ List.mem_cons_self _ _)
      | cons m0 mid' =>
        refine Or.inr ?_
        obtain ⟨c0, t0, hm0⟩ : ∃ c0 t0, m0 = c0 :: t0 := by
          have hne := hmid_ne_nil m0 (by rw [hm]; exact List.mem_cons_self _ _)
          cases hc : m0 with
          | nil => exact absurd hc hne
          | cons c0 t0 => exact ⟨c0, t0, rfl⟩
        obtain ⟨y2, w2, hw2⟩ : ∃ y2 w2, mid' ++ [last] = y2 :: w2 := by
          cases hc : mid' ++ [last] with
          | nil => exact absurd hc (by simp)
          | cons y2 w2 => exact ⟨y2, w2, rfl⟩
        rw [List.cons_append, hw2, pyjoin_cons_cons, hm0]
        intro c2 hc2
        rw [List.cons_append] at hc2
        have hc2' : c2 = c0 := by simpa using hc2
        subst hc2'
        have hnm : '/' ∉ m0 := hsegslash m0 (by rw [hm]; simp)
        rw [hm0] at hnm
        exact fun he => hnm (he ▸ List.mem_cons_self _ _)
    have hnr : ¬ (startswith (pystr "/") u = true) := by
      rw [hroot']
      exact Bool.false_ne_true
    simp only [Urllib.pathResolve]
    rw [if_neg hnr, hB, hfm, hfold, if_neg hcond, hjoin_eq]
    rw [if_neg (by simp : ¬ ('/' :: pyjoin '/' (mid ++ [last]) = []))]
    refine ⟨?_, ?_, ?_, ?_⟩
    · exact startswith_single_cons
    · exact startswith_cons_false hJhead
    · intro c hc
      rcases List.mem_cons.mp hc with rfl | hc2
      · decide
      · rcases mem_pyjoin hc2 with rfl | ⟨s, hs, hcs⟩
        · decide
        · exact hsegbad s (by
            rcases List.mem_append.mp hs with h1 | h2
            · exact List.mem_append.mpr (Or.inl (List.mem_cons_of_mem _ h1))
            · exact List.mem_append.mpr (Or.inr h2)) c hcs
    · intro s hs
      rw [show ('/' :: pyjoin '/' (mid ++ [last])) =
          pyjoin '/' ((([] : Str) :: mid) ++ [last]) from hjoin_eq.symm] at hs
      rw [pyjoin,
        List.splitOn_intercalate _ '/' (fun l hl => hsegslash l hl) (by simp)] at hs
      exact hsegdot s hs

/-! ### urljoin derivation and idempotence -/

theorem isPrefixOf_append_self (p t : Str) : p.isPrefixOf (p ++ t) = true := by
  induction p with
  | nil => cases t <;> rfl
  | cons a p' ih => simp [List.isPrefixOf, ih]

theorem rooted_facts {R : Str} (h : startswith (pystr "/") R = true) :
    R ≠ [] ∧ (∀ c ∈ R.take 1, 32 < c.toNat) ∧
      (':' ∉ R.takeWhile (fun c => c ≠ '/')) := by
  cases R with
  | nil => simp [startswith, pystr, List.isPrefixOf] at h
  | cons r0 t =>
    have hr0 : r0 = '/' := by
      simp [startswith, pystr, List.isPrefixOf] at h
      exact h.symm
    subst hr0
    refine ⟨by simp, ?_, ?_⟩
    · intro c hc
      have : c = '/' := by simpa using hc
      subst this
      decide
    · rw [List.takeWhile_cons]
      simp

theorem goodBase_concat_ne_nil {S N P : Str}
    (hS : S = pystr "http" ∨ S = pystr "https") :
    S ++ pystr "://" ++ N ++ P ≠ [] := by
  rcases hS with rfl | rfl <;>
    (intro h; have := congrArg List.length h; simp [pystr] at this)

theorem stripControl_scheme {S : Str} (hS : S = pystr "http" ∨ S = pystr "https") :
    Urllib.removeUnsafe (Urllib.stripControl S) = S := by
  rcases hS with rfl | rfl <;> decide

theorem strIn_scheme_true {S N P : Str}
    (hS : S = pystr "http" ∨ S = pystr "https") :
    (strIn (pystr "http://") (S ++ pystr "://" ++ N ++ P) ||
     strIn (pystr "https://") (S ++ pystr "://" ++ N ++ P)) = true := by
  rcases hS with rfl | rfl
  · rw [Bool.or_eq_true]
    left
    rw [show (pystr "http" ++ pystr "://" ++ N ++ P) =
        pystr "http://" ++ (N ++ P) from rfl]
    exact strIn_of_isPrefixOf (isPrefixOf_append_self _ _)
  · rw [Bool.or_eq_true]
    right
    rw [show (pystr "https" ++ pystr "://" ++ N ++ P) =
        pystr "https://" ++ (N ++ P) from rfl]
    exact strIn_of_isPrefixOf (isPrefixOf_append_self _ _)

theorem goodNetloc_delims {N : Str} (hN : Links.GoodNetloc N) :
    ∀ c ∈ N, ¬(c = '/' ∨ c = '?' ∨ c = '#' ∨ c = '\t' ∨ c = '\x0d' ∨ c = '\n') :=
  hN.2

theorem urljoin_abs_resolve {S N P u : Str}
    (hS : S = pystr "http" ∨ S = pystr "https")
    (hN : Links.GoodNetloc N) (hP : Links.GoodPath P)
    (hu : u ≠ []) (hbad : ∀ c ∈ u, Links.badChar c = false)
    (hhead : ∀ c ∈ u.take 1, 32 < c.toNat)
    (hpp : startswith (pystr "//") u = false)
    (hcolon : ':' ∉ u.takeWhile (fun c => c ≠ '/')) :
    Urllib.urljoin (S ++ pystr "://" ++ N ++ P) u =
      Urllib.urlunparse S N (Urllib.pathResolve P u) [] [] [] := by
  obtain ⟨hN1, hN2⟩ := hN
  obtain ⟨hPbad, hPshape, hPdot⟩ := hP
  have hProot : P = [] ∨ startswith (pystr "/") P = true :=
    hPshape.imp (fun h => h) (fun h => h.1)
  have hbase_ne := goodBase_concat_ne_nil (N := N) (P := P) hS
  have hbparse : Urllib.urlparse (S ++ pystr "://" ++ N ++ P) [] =
      ⟨S, N, P, [], [], []⟩ :=
    urlparse_abs S N P [] hS hN1 hN2 hPbad hProot rfl
  have huparse : Urllib.urlparse u S = ⟨S, [], u, [], [], []⟩ :=
    urlparse_rel u S (stripControl_scheme hS) hbad hhead hpp hcolon
  simp only [Urllib.urljoin]
  rw [if_neg hbase_ne, if_neg hu, hbparse]
  dsimp only
  rw [huparse]
  dsimp only
  rw [if_pos ⟨rfl, by rcases hS with rfl | rfl <;> decide⟩]
  rw [if_neg (fun hand => hand.2 rfl)]
  rw [if_pos (show S ∈ Urllib.uses_netloc from by rcases hS with rfl | rfl <;> decide)]
  rw [if_neg (fun hand => hu hand.1)]

theorem resolveHref_abs_out {S N P R : Str}
    (hS : S = pystr "http" ∨ S = pystr "https")
    (hN : Links.GoodNetloc N) (hP : Links.GoodPath P)
    (hR : Links.GoodAbsPath R) :
    Links.resolveHref (S ++ pystr "://" ++ N ++ P) (S ++ pystr "://" ++ N ++ R) =
      S ++ pystr "://" ++ N ++ R := by
  obtain ⟨hroot, hpp, hbad, hdot⟩ := hR
  obtain ⟨hRne, hRhead, hRcolon⟩ := rooted_facts hroot
  have hstrip : Links.stripHref (S ++ pystr "://" ++ N ++ R) = R := by
    rw [Links.stripHref, if_pos (strIn_scheme_true hS)]
    rw [urlsplit_abs S N R [] hS hN.1 hN.2 hbad (Or.inr hroot) rfl]
  rw [Links.resolveHref, hstrip]
  rw [urljoin_abs_resolve hS hN hP hRne hbad hRhead hpp hRcolon]
  rw [pathResolve_rooted P hroot hdot]
  exact urlunparse_abs S N R hS hN.1 (Or.inr hroot)

theorem urljoin_nil_right {b : Str} (hb : b ≠ []) : Urllib.urljoin b [] = b := by
  rw [Urllib.urljoin, if_neg hb]
  simp

theorem resolveHref_base_fix {S N P : Str}
    (hS : S = pystr "http" ∨ S = pystr "https")
    (hN : Links.GoodNetloc N) (hP : Links.GoodPath P) :
    Links.resolveHref (S ++ pystr "://" ++ N ++ P) (S ++ pystr "://" ++ N ++ P) =
      S ++ pystr "://" ++ N ++ P := by
  obtain ⟨hPbad, hPshape, hPdot⟩ := hP
  have hstrip : Links.stripHref (S ++ pystr "://" ++ N ++ P) = P := by
    rw [Links.stripHref, if_pos (strIn_scheme_true hS)]
    rw [urlsplit_abs S N P [] hS hN.1 hN.2 hPbad
      (hPshape.imp (fun h => h) (fun h => h.1)) rfl]
  rw [Links.resolveHref, hstrip]
  rcases hPshape with rfl | hProot
  · exact urljoin_nil_right (goodBase_concat_ne_nil hS)
  · obtain ⟨hPne, hPhead, hPcolon⟩ := rooted_facts hProot.1
    rw [urljoin_abs_resolve hS hN ⟨hPbad, Or.inr hProot, hPdot⟩ hPne hPbad hPhead
      hProot.2 hPcolon]
    rw [pathResolve_rooted P hProot.1 hPdot]
    exact urlunparse_abs S N P hS hN.1 (Or.inr hProot.1)

theorem resolveHref_idem {b h : Str} (hb : Links.GoodBase b) (hh : Links.GoodHref h) :
    Links.resolveHref b (Links.resolveHref b h) = Links.resolveHref b h := by
  obtain ⟨S, N, P, hS, rfl, hN, hP⟩ := hb
  obtain ⟨hbad, hor⟩ := hh
  by_cases hu1 : Links.stripHref h = []
  · have hO : Links.resolveHref (S ++ pystr "://" ++ N ++ P) h =
        S ++ pystr "://" ++ N ++ P := by
      rw [Links.resolveHref, hu1]
      exact urljoin_nil_right (goodBase_concat_ne_nil hS)
    rw [hO]
    exact resolveHref_base_fix hS hN hP
  · rcases hor with h1 | hc
    · exact absurd h1 hu1
    obtain ⟨hhead, hpp, hcolon, hdot⟩ := hc
    have hR := pathResolve_good hP hu1 hpp hbad hdot
    have hO : Links.resolveHref (S ++ pystr "://" ++ N ++ P) h =
        S ++ pystr "://" ++ N ++ Urllib.pathResolve P (Links.stripHref h) := by
      rw [Links.resolveHref, urljoin_abs_resolve hS hN hP hu1 hbad hhead hpp hcolon]
      exact urlunparse_abs S N _ hS hN.1 (Or.inr hR.1)
    rw [hO]
    exact resolveHref_abs_out hS hN hP hR

/-! ### Claim theorems -/

/-- C1: in a PAYLOAD-mode composition processed in order
`[base, ...extensions, ...mixins]`, the composed schema's entry for any field
name — in particular a colliding one — equals the translation of the *last*
input pair carrying that name: the later definition fully replaces the
earlier one, with no partial merge of individual constraints. -/
theorem c1_payload_last_wins (model_name : Str) (base_model : Models.ReqModel)
    (extensions : Option (List (Str → Option Models.ReqModel)))
    (mixins : Option (List Models.ReqModel)) (request_type : Str)
    (models : List Models.ReqModel)
    (hm : models =
      base_model :: (extensions.getD []).filterMap (fun ext => ext request_type) ++
        mixins.getD [])
    (hall : models.all Models.isBaseModel = true) (k : Str)
    (p : Str × Models.ModelField)
    (hlast : Models.lastAssoc k (models.flatMap Models.fieldsOf) = some p) :
    Models.create_request_model model_name base_model extensions mixins request_type =
      Except.ok (Models.ComposedModel.pydModel model_name (Models.buildFields models)
        base_model) ∧
    Models.dictLookup k (Models.buildFields models) =
      some (p.2.outer_type, Models.bodyOf p.2.field_info) := by
  refine ⟨Models.create_request_model_payload model_name base_model extensions mixins
    request_type models hm hall, ?_⟩
  rw [Models.buildFields_eq_foldPairs, Models.dictLookup_foldPairs, hlast]

/-- Witness for C1, instantiating the spec's own example: composing
`base = {id : str}` with mixin `{id : int, limit : int = 10}` in PAYLOAD mode
yields `id : int` — the extension's redefinition of `id` wins wholesale. -/
theorem c1_payload_last_wins_witness :
    Models.create_request_model (pystr "SearchPostRequest") Fixtures.exBaseModel
        Option.none (some [Fixtures.exExtModel]) (pystr "POST") =
      Except.ok (Models.ComposedModel.pydModel (pystr "SearchPostRequest")
        (Models.buildFields [Fixtures.exBaseModel, Fixtures.exExtModel])
        Fixtures.exBaseModel) ∧
    Models.dictLookup (pystr "id")
        (Models.buildFields [Fixtures.exBaseModel, Fixtures.exExtModel]) =
      some (pystr "int",
        Models.bodyOf (Fixtures.plainInfo Models.PyVal.undef)) :=
  c1_payload_last_wins (pystr "SearchPostRequest") Fixtures.exBaseModel
    Option.none (some [Fixtures.exExtModel]) (pystr "POST")
    [Fixtures.exBaseModel, Fixtures.exExtModel] rfl (by decide) (pystr "id")
    (pystr "id", ⟨pystr "int", Fixtures.plainInfo Models.PyVal.undef⟩) (by decide)

/-- C2 counterexample: the composer does *not* carry the required/optional
status verbatim.  Composing a payload model whose field `id` is required
(undefined default, no default factory) produces a composed entry whose
default is `None`: by pydantic field semantics the input field is required
but the composed field is optional. -/
theorem c2_counterexample :
    Models.create_request_model (pystr "M") Fixtures.exBaseModel Option.none Option.none
        (pystr "POST") =
      Except.ok (Models.ComposedModel.pydModel (pystr "M")
        [(pystr "id", (pystr "str", Models.bodyOf (Fixtures.plainInfo Models.PyVal.undef)))]
        Fixtures.exBaseModel) ∧
    Models.isRequiredField (Fixtures.plainInfo Models.PyVal.undef).default
        (Fixtures.plainInfo Models.PyVal.undef).default_factory = true ∧
    (Models.bodyOf (Fixtures.plainInfo Models.PyVal.undef)).default = Models.PyVal.none ∧
    Models.isRequiredField (Models.bodyOf (Fixtures.plainInfo Models.PyVal.undef)).default
        (Models.bodyOf (Fixtures.plainInfo Models.PyVal.undef)).default_factory = false := by
  exact ⟨rfl, by decide, by decide, by decide⟩

/-- C2 (amended): for every field of every payload-mode input model, the
composer carries the default factory, alias, alias priority, title,
description, const, numeric bounds, item/length bounds, pattern and extra
slots verbatim into the merged schema, and carries the default value
verbatim whenever the field has a concrete default; a field with the
undefined default marker (a required field) instead receives default `None`
(and so becomes optional). -/
theorem c2_constraints_carried (model_name : Str) (base_model : Models.ReqModel)
    (extensions : Option (List (Str → Option Models.ReqModel)))
    (mixins : Option (List Models.ReqModel)) (request_type : Str)
    (models : List Models.ReqModel)
    (hm : models =
      base_model :: (extensions.getD []).filterMap (fun ext => ext request_type) ++
        mixins.getD [])
    (hall : models.all Models.isBaseModel = true) (k : Str)
    (p : Str × Models.ModelField)
    (hlast : Models.lastAssoc k (models.flatMap Models.fieldsOf) = some p) :
    Models.create_request_model model_name base_model extensions mixins request_type =
      Except.ok (Models.ComposedModel.pydModel model_name (Models.buildFields models)
        base_model) ∧
    ∃ b : Models.BodyParam,
      Models.dictLookup k (Models.buildFields models) = some (p.2.outer_type, b) ∧
      b.default_factory = p.2.field_info.default_factory ∧
      b.alias_ = p.2.field_info.alias_ ∧
      b.alias_priority = p.2.field_info.alias_priority ∧
      b.title = p.2.field_info.title ∧
      b.description = p.2.field_info.description ∧
      b.const = p.2.field_info.const ∧
      b.gt = p.2.field_info.gt ∧
      b.ge = p.2.field_info.ge ∧
      b.lt = p.2.field_info.lt ∧
      b.le = p.2.field_info.le ∧
      b.multiple_of = p.2.field_info.multiple_of ∧
      b.min_items = p.2.field_info.min_items ∧
      b.max_items = p.2.field_info.max_items ∧
      b.min_length = p.2.field_info.min_length ∧
      b.max_length = p.2.field_info.max_length ∧
      b.regex = p.2.field_info.regex ∧
      b.extra = p.2.field_info.extra ∧
      (p.2.field_info.default ≠ Models.PyVal.undef → b.default = p.2.field_info.default) ∧
      (p.2.field_info.default = Models.PyVal.undef → b.default = Models.PyVal.none) := by
  refine ⟨Models.create_request_model_payload model_name base_model extensions mixins
    request_type models hm hall, Models.bodyOf p.2.field_info, ?_, rfl, rfl, rfl, rfl,
    rfl, rfl, rfl, rfl, rfl, rfl, rfl, rfl, rfl, rfl, rfl, rfl, rfl, ?_, ?_⟩
  · rw [Models.buildFields_eq_foldPairs, Models.dictLookup_foldPairs, hlast]
  · intro h
    simp [Models.bodyOf, h]
  · intro h
    simp [Models.bodyOf, h]

/-- Witness for C2 (amended), at the concrete composition of
`{id : str}` with `{id : int, limit : int = 10}`, for the field `limit`. -/
theorem c2_constraints_carried_witness :
    Models.create_request_model (pystr "SearchPostRequest") Fixtures.exBaseModel
        Option.none (some [Fixtures.exExtModel]) (pystr "POST") =
      Except.ok (Models.ComposedModel.pydModel (pystr "SearchPostRequest")
        (Models.buildFields [Fixtures.exBaseModel, Fixtures.exExtModel])
        Fixtures.exBaseModel) ∧
    ∃ b : Models.BodyParam,
      Models.dictLookup (pystr "limit")
          (Models.buildFields [Fixtures.exBaseModel, Fixtures.exExtModel]) =
        some (pystr "int", b) ∧
      b.default_factory = (Fixtures.plainInfo (Models.PyVal.int 10)).default_factory ∧
      b.alias_ = (Fixtures.plainInfo (Models.PyVal.int 10)).alias_ ∧
      b.alias_priority = (Fixtures.plainInfo (Models.PyVal.int 10)).alias_priority ∧
      b.title = (Fixtures.plainInfo (Models.PyVal.int 10)).title ∧
      b.description = (Fixtures.plainInfo (Models.PyVal.int 10)).description ∧
      b.const = (Fixtures.plainInfo (Models.PyVal.int 10)).const ∧
      b.gt = (Fixtures.plainInfo (Models.PyVal.int 10)).gt ∧
      b.ge = (Fixtures.plainInfo (Models.PyVal.int 10)).ge ∧
      b.lt = (Fixtures.plainInfo (Models.PyVal.int 10)).lt ∧
      b.le = (Fixtures.plainInfo (Models.PyVal.int 10)).le ∧
      b.multiple_of = (Fixtures.plainInfo (Models.PyVal.int 10)).multiple_of ∧
      b.min_items = (Fixtures.plainInfo (Models.PyVal.int 10)).min_items ∧
      b.max_items = (Fixtures.plainInfo (Models.PyVal.int 10)).max_items ∧
      b.min_length = (Fixtures.plainInfo (Models.PyVal.int 10)).min_length ∧
      b.max_length = (Fixtures.plainInfo (Models.PyVal.int 10)).max_length ∧
      b.regex = (Fixtures.plainInfo (Models.PyVal.int 10)).regex ∧
      b.extra = (Fixtures.plainInfo (Models.PyVal.int 10)).extra ∧
      ((Fixtures.plainInfo (Models.PyVal.int 10)).default ≠ Models.PyVal.undef →
        b.default = (Fixtures.plainInfo (Models.PyVal.int 10)).default) ∧
      ((Fixtures.plainInfo (Models.PyVal.int 10)).default = Models.PyVal.undef →
        b.default = Models.PyVal.none) :=
  c2_constraints_carried (pystr "SearchPostRequest") Fixtures.exBaseModel
    Option.none (some [Fixtures.exExtModel]) (pystr "POST")
    [Fixtures.exBaseModel, Fixtures.exExtModel] rfl (by decide) (pystr "limit")
    (pystr "limit", ⟨pystr "int", Fixtures.plainInfo (Models.PyVal.int 10)⟩) (by decide)

/-- C3: whenever the input list of `create_request_model` mixes at least one
attribute-style (`APIRequest`) input with at least one payload-style
(`BaseModel`) input — regardless of which of them is the base — the
composition raises the schema-composition `TypeError` instead of returning a
model. -/
theorem c3_mixed_models_error (model_name : Str) (base_model : Models.ReqModel)
    (extensions : Option (List (Str → Option Models.ReqModel)))
    (mixins : Option (List Models.ReqModel)) (request_type : Str)
    (models : List Models.ReqModel)
    (hm : models =
      base_model :: (extensions.getD []).filterMap (fun ext => ext request_type) ++
        mixins.getD [])
    (ma mb : Models.ReqModel) (hma : ma ∈ models) (hmb : mb ∈ models)
    (ha : Models.isAPIRequest ma = true) (hb : Models.isBaseModel mb = true) :
    Models.create_request_model model_name base_model extensions mixins request_type =
      Except.error (pystr "Mixed Request Model types. Check extension request types.") := by
  have h1 : models.all Models.isAPIRequest = false :=
    List.all_eq_false.mpr
      ⟨mb, hmb, by simp [Models.isAPIRequest_eq_false_of_isBaseModel hb]⟩
  have h2 : models.all Models.isBaseModel = false :=
    List.all_eq_false.mpr
      ⟨ma, hma, by simp [Models.isBaseModel_eq_false_of_isAPIRequest ha]⟩
  simp only [Models.create_request_model]
  rw [← hm, h1, h2]
  simp

/-- Witness for C3: an attribute-style base mixed with a payload-style mixin
fails with the schema-composition error. -/
theorem c3_mixed_models_error_witness :
    Models.create_request_model (pystr "M") Fixtures.exApiModel Option.none
        (some [Fixtures.exBaseModel]) (pystr "GET") =
      Except.error (pystr "Mixed Request Model types. Check extension request types.") :=
  c3_mixed_models_error (pystr "M") Fixtures.exApiModel Option.none
    (some [Fixtures.exBaseModel]) (pystr "GET") [Fixtures.exApiModel, Fixtures.exBaseModel]
    rfl Fixtures.exApiModel Fixtures.exBaseModel (by decide) (by decide)
    (by decide) (by decide)

/-- C4: whenever the wrapped handler returns `None`, `_wrap_response`
produces a response with an empty body, status 204 ("no content") and cache
directive `max-age=0` — for every configuration, verb and path, including a
GET of the root path or of an allow-listed catalog path. -/
theorem c4_none_no_content (cfg : Routes.WrapConfig) (α : Type) (verb url_path : Str) :
    Routes.wrap_response cfg (Option.none : Option α) verb url_path =
      ⟨204, pystr "max-age=0", Option.none⟩ := rfl

/-- C5: for a non-null handler result, the response carries the configured
shared cache directive exactly when the method is GET and either the path is
the root path `/` or the path starts with `/catalogs/` with a catalog
segment in the configured allow-list; in every other case it carries
`max-age=0` (always with status 200 and the result as body). -/
theorem c5_cache_control (cfg : Routes.WrapConfig) (α : Type) (r : α) (verb url_path : Str) :
    Routes.wrap_response cfg (some r) verb url_path =
      if verb = pystr "GET" ∧ (url_path = pystr "/" ∨
          (startswith (pystr "/catalogs/") url_path = true ∧
            (pysplit '/' url_path).getD 2 [] ∈ cfg.cacheControlCatalogsList)) then
        ⟨200, cfg.cacheControlHeaders, some r⟩
      else ⟨200, pystr "max-age=0", some r⟩ := by
  by_cases hg : verb = pystr "GET"
  · by_cases hs : startswith (pystr "/catalogs/") url_path = true
    · have hr : ¬ url_path = pystr "/" := by
        rintro rfl
        exact absurd hs (by decide)
      by_cases hmem : (pysplit '/' url_path).getD 2 [] ∈ cfg.cacheControlCatalogsList
      · simp [Routes.wrap_response, hg, hs, hmem, hr]
      · simp [Routes.wrap_response, hg, hs, hmem, hr]
    · by_cases hr : url_path = pystr "/"
      · subst hr
        have h1 : startswith (pystr "/catalogs/") (pystr "/") = false := by decide
        simp [Routes.wrap_response, hg, h1]
      · simp [Routes.wrap_response, hg, hs, hr]
  · simp [Routes.wrap_response, hg]

/-- C6: with no bearer credential, `extract_headers` returns exactly
`{"X-Workspaces": [], "X-Authorized": "unauthorized"}` (no rejection); with
a credential, it exchanges the credential for a workspace-scoped token
(scope `"workspaces"`), decodes that token with signature verification
disabled (`verify_signature = false`, algorithms `["HS256"]`), and returns
`{"X-Workspaces": <decoded workspaces claim>, "X-Authorized": "authorized"}`. -/
theorem c6_extract_headers (token_exchange : Str → Str → Str)
    (jwt_decode : Str → Bool → List Str → List (Str × List Str))
    (credentials : Option Str) :
    (credentials = Option.none →
      Routes.extract_headers token_exchange jwt_decode credentials =
        [(pystr "X-Workspaces", Routes.HeaderVal.workspaces []),
         (pystr "X-Authorized", Routes.HeaderVal.str (pystr "unauthorized"))]) ∧
    (∀ cred, credentials = some cred →
      Routes.extract_headers token_exchange jwt_decode credentials =
        [(pystr "X-Workspaces", Routes.HeaderVal.workspaces
            (Routes.claimGet
              (jwt_decode (token_exchange cred (pystr "workspaces")) false [pystr "HS256"])
              (pystr "workspaces"))),
         (pystr "X-Authorized", Routes.HeaderVal.str (pystr "authorized"))]) := by
  constructor
  · rintro rfl
    rfl
  · rintro cred rfl
    rfl

/-- Witness for C6 at a concrete exchange and decode function. -/
theorem c6_extract_headers_witness :
    Routes.extract_headers (fun t _ => t)
        (fun _ _ _ => [(pystr "workspaces", [pystr "ws1"])]) (some (pystr "tok")) =
      [(pystr "X-Workspaces", Routes.HeaderVal.workspaces [pystr "ws1"]),
       (pystr "X-Authorized", Routes.HeaderVal.str (pystr "authorized"))] := by
  have h := (c6_extract_headers (fun t _ => t)
    (fun _ _ _ => [(pystr "workspaces", [pystr "ws1"])]) (some (pystr "tok"))).2
    (pystr "tok") rfl
  simpa using h

/-- C7 counterexample: `resolve_links` is *not* idempotent for every link
list and base url.  A persisted link with href `"a?q=1"` resolved against
`"http://h/"` becomes `"http://h/a?q=1"`; a second pass reduces that
absolute href to its path `"/a"` — dropping the query — and yields
`"http://h/a"`. -/
theorem c7_counterexample :
    Links.resolve_links
        (Links.resolve_links [⟨pystr "license", pystr "a?q=1", []⟩] (pystr "http://h/"))
        (pystr "http://h/") ≠
      Links.resolve_links [⟨pystr "license", pystr "a?q=1", []⟩] (pystr "http://h/") := by
  decide

/-- C7 (amended): `resolve_links` is idempotent for every base url that is a
well-behaved absolute http(s) url (nonempty netloc, no query/fragment/params
characters, path empty or absolute but not protocol-relative and free of
dot segments) and every link list whose hrefs, after the
absolute-url-to-path reduction step, carry no query, fragment, params or
unsafe characters and are either empty or scheme-free, not
protocol-relative, and free of dot segments. -/
theorem c7_resolve_links_idem (L : List Links.Link) (b : Str)
    (hb : Links.GoodBase b) (hh : ∀ l ∈ L, Links.GoodHref l.href) :
    Links.resolve_links (Links.resolve_links L b) b = Links.resolve_links L b := by
  unfold Links.resolve_links
  have hfilter : Links.filter_links ((Links.filter_links L).map
      (fun link => { link with href := Links.resolveHref b link.href })) =
      (Links.filter_links L).map
        (fun link => { link with href := Links.resolveHref b link.href }) := by
    rw [Links.filter_links, List.filter_eq_self]
    intro l hl
    rcases List.mem_map.mp hl with ⟨l0, hl0, rfl⟩
    rw [Links.filter_links] at hl0
    have := (List.mem_filter.mp hl0).2
    simpa using this
  rw [show Links.filter_links ((Links.filter_links L).map
      (fun link => { link with href := Links.resolveHref b link.href })) =
      (Links.filter_links L).map
        (fun link => { link with href := Links.resolveHref b link.href })
    from hfilter]
  rw [List.map_map]
  apply List.map_congr_left
  intro l hl
  have hmemL : l ∈ L := by
    rw [Links.filter_links] at hl
    exact (List.mem_filter.mp hl).1
  have hgood : Links.GoodHref l.href := hh l hmemL
  show (⟨l.rel, Links.resolveHref b (Links.resolveHref b l.href), l.rest⟩ : Links.Link) =
    ⟨l.rel, Links.resolveHref b l.href, l.rest⟩
  rw [resolveHref_idem hb hgood]

/-- Witness for C7 (amended) at base `"http://h/"` and a relative href. -/
theorem c7_resolve_links_idem_witness :
    Links.GoodBase (pystr "http://h/") ∧
    Links.resolve_links
        (Links.resolve_links [⟨pystr "license", pystr "docs/a.html", []⟩]
          (pystr "http://h/"))
        (pystr "http://h/") =
      Links.resolve_links [⟨pystr "license", pystr "docs/a.html", []⟩]
        (pystr "http://h/") := by
  have hb : Links.GoodBase (pystr "http://h/") :=
    ⟨pystr "http", pystr "h", pystr "/", Or.inl rfl, by decide,
      by unfold Links.GoodNetloc; decide, by unfold Links.GoodPath; decide⟩
  refine ⟨hb, c7_resolve_links_idem _ _ hb ?_⟩
  intro l hl
  have hle : l = ⟨pystr "license", pystr "docs/a.html", []⟩ := by
    simpa using hl
  subst hle
  show Links.GoodHref (pystr "docs/a.html")
  unfold Links.GoodHref
  decide

/-- C8: `resolve_links` drops every input link whose relation is one of the
eight inferred relations and retains every other link with its relation
string preserved verbatim. -/
theorem c8_inferred_dropped (L : List Links.Link) (u : Str) :
    (∀ l ∈ Links.resolve_links L u, l.rel ∉ Links.INFERRED_LINK_RELS) ∧
    (Links.resolve_links L u).map Links.Link.rel =
      (L.filter (fun l => decide (l.rel ∉ Links.INFERRED_LINK_RELS))).map Links.Link.rel := by
  constructor
  · intro l hl
    simp only [Links.resolve_links, Links.filter_links, List.mem_map,
      List.mem_filter] at hl
    rcases hl with ⟨l', ⟨hmem, hdec⟩, rfl⟩
    exact of_decide_eq_true hdec
  · simp only [Links.resolve_links, Links.filter_links, List.map_map]
    exact List.map_congr_left (fun l hl => rfl)

/-- Witness for C8: a `self` link is dropped while a `license` link survives
with its relation intact. -/
theorem c8_inferred_dropped_witness :
    ((⟨pystr "license", Links.resolveHref (pystr "http://h/") (pystr "l"), []⟩ :
        Links.Link).rel ∉ Links.INFERRED_LINK_RELS) ∧
    (Links.resolve_links
        [⟨pystr "self", pystr "s", []⟩, ⟨pystr "license", pystr "l", []⟩]
        (pystr "http://h/")).map Links.Link.rel = [pystr "license"] := by
  have h := c8_inferred_dropped
    [⟨pystr "self", pystr "s", []⟩, ⟨pystr "license", pystr "l", []⟩] (pystr "http://h/")
  refine ⟨h.1 _ ?_, ?_⟩
  · show _ ∈ Links.resolve_links _ _
    decide
  · rw [h.2]
    decide

/-- For distinct in-range addresses, updating a store at each address in turn
changes exactly those cells, each by the update function applied once. -/
theorem foldl_set_frame (f : Links.Link → Links.Link) (idxs : List Nat) :
    ∀ (store : List Links.Link), (∀ i ∈ idxs, i < store.length) → idxs.Nodup → ∀ j,
      (idxs.foldl (fun st i => st.set i (f (st.getD i Links.dfltLink))) store)[j]? =
        if j ∈ idxs then store[j]?.map f else store[j]? := by
  induction idxs with
  | nil => intro store hv hnd j; simp
  | cons i rest ih =>
    intro store hv hnd j
    have hi : i < store.length := hv i (List.mem_cons_self _ _)
    have hstep : store.set i (f (store.getD i Links.dfltLink)) =
        store.set i (f (store.getD i Links.dfltLink)) := rfl
    have hv' : ∀ x ∈ rest, x < (store.set i (f (store.getD i Links.dfltLink))).length := by
      intro x hx
      simpa [List.length_set] using hv x (List.mem_cons_of_mem _ hx)
    have hnd' := (List.nodup_cons.mp hnd).2
    have hni := (List.nodup_cons.mp hnd).1
    simp only [List.foldl_cons]
    rw [ih _ hv' hnd']
    by_cases hj : j ∈ rest
    · have hji : j ≠ i := fun h => hni (h ▸ hj)
      simp [hj, List.mem_cons, List.getElem?_set_ne (Ne.symm hji)]
    · by_cases hji : j = i
      · subst hji
        have hgd : store.getD j Links.dfltLink = store[j] := by
          simp [List.getD_eq_getElem?_getD, List.getElem?_eq_getElem hi]
        simp [hj, List.getElem?_set_eq_of_lt _ hi, hgd, List.getElem?_eq_getElem hi]
      · have : j ∉ i :: rest := by
          simp [List.mem_cons, hji, hj]
        simp [this, hj, List.getElem?_set_ne (Ne.symm hji)]

/-- C10: `resolve_links` returns the very addresses of the retained input
dicts (no fresh copies), mutates exactly those store cells, and each mutated
cell differs from the input only in its `href` field — relation, media type,
method and extra keys are untouched, and non-retained links are untouched. -/
theorem c10_href_only_in_place (store : List Links.Link) (links : List Nat) (u : Str)
    (hv : ∀ i ∈ links, i < store.length) (hnd : links.Nodup) :
    (Links.resolve_links_st store links u).2 = Links.filter_links_st store links ∧
    (∀ i ∈ (Links.resolve_links_st store links u).2,
      (Links.resolve_links_st store links u).1[i]? =
        store[i]?.map (fun l => ⟨l.rel, Links.resolveHref u l.href, l.rest⟩)) ∧
    (∀ j, j ∉ (Links.resolve_links_st store links u).2 →
      (Links.resolve_links_st store links u).1[j]? = store[j]?) := by
  have hsub : ∀ i ∈ Links.filter_links_st store links, i < store.length := by
    intro i hi
    exact hv i (List.mem_filter.mp hi).1
  have hnd' : (Links.filter_links_st store links).Nodup := hnd.filter _
  have hframe := foldl_set_frame
    (fun l => ⟨l.rel, Links.resolveHref u l.href, l.rest⟩)
    (Links.filter_links_st store links) store hsub hnd'
  refine ⟨rfl, ?_, ?_⟩
  · intro i hi
    rw [show (Links.resolve_links_st store links u).2 = Links.filter_links_st store links
      from rfl] at hi
    have h := hframe i
    rw [if_pos hi] at h
    exact h
  · intro j hj
    rw [show (Links.resolve_links_st store links u).2 = Links.filter_links_st store links
      from rfl] at hj
    have h := hframe j
    rw [if_neg hj] at h
    exact h

/-- Witness for C10: two links, one inferred (`self`) and one not
(`license`); only the `license` cell changes, and only its href. -/
theorem c10_href_only_in_place_witness :
    (Links.resolve_links_st
        [⟨pystr "self", pystr "s", []⟩, ⟨pystr "license", pystr "l", [(pystr "type", pystr "text/html")]⟩]
        [0, 1] (pystr "http://h/")).2 = [1] ∧
    (Links.resolve_links_st
        [⟨pystr "self", pystr "s", []⟩, ⟨pystr "license", pystr "l", [(pystr "type", pystr "text/html")]⟩]
        [0, 1] (pystr "http://h/")).1[1]? =
      some ⟨pystr "license", Links.resolveHref (pystr "http://h/") (pystr "l"),
        [(pystr "type", pystr "text/html")]⟩ ∧
    (Links.resolve_links_st
        [⟨pystr "self", pystr "s", []⟩, ⟨pystr "license", pystr "l", [(pystr "type", pystr "text/html")]⟩]
        [0, 1] (pystr "http://h/")).1[0]? = some ⟨pystr "self", pystr "s", []⟩ := by
  have h := c10_href_only_in_place
    [⟨pystr "self", pystr "s", []⟩, ⟨pystr "license", pystr "l", [(pystr "type", pystr "text/html")]⟩]
    [0, 1] (pystr "http://h/") (by decide) (by decide)
  refine ⟨by rw [h.1]; decide, ?_, ?_⟩
  · have h2 := h.2.1 1 (by rw [h.1]; decide)
    rw [h2]
    decide
  · have h3 := h.2.2 0 (by rw [h.1]; decide)
    rw [h3]
    decide

/-- C9 (code bug): the conformance list is *not* read-only under reads.
`list_conformance_classes` aliases the module-level `BASE_CONFORMANCE_CLASSES`
list and extends it in place, so with one extension contributing one class,
a single call changes the module-level list, and a repeated call returns a
different (duplicated) result — contradicting the read-only-after-startup
claim, while the sibling `conformance_classes` copies before extending and
leaves its input unchanged. -/
theorem c9_list_conformance_mutates :
    (Core.list_conformance_classes [pystr "base-class"]
        [⟨[pystr "ext-class"]⟩]).2 ≠ [pystr "base-class"] ∧
    (Core.list_conformance_classes
        (Core.list_conformance_classes [pystr "base-class"] [⟨[pystr "ext-class"]⟩]).2
        [⟨[pystr "ext-class"]⟩]).1 ≠
      (Core.list_conformance_classes [pystr "base-class"] [⟨[pystr "ext-class"]⟩]).1 ∧
    (Core.conformance_classes [pystr "base-class"] [⟨[pystr "ext-class"]⟩]).2 =
      [pystr "base-class"] := by
  decide

end StacFastapi
